import Mathlib

/-!
Shallow embedding of the rusty-poker core (src/card.rs, src/util.rs,
src/hand_type.rs, src/equity.rs) and proofs about it.

Conventions of the embedding:
* Rust `Vec<Card>` becomes `List Card`; fixed-size arrays `[Card; n]` become
  `List Card` values of length `n` (built by explicit pattern matches that
  mirror the source's `get(i).unwrap()` accesses).
* A Rust panic (a failed `unwrap`, a failed `assert!`, or an explicit
  `panic!`) is modelled as `Option.none` of an outer `Option` layer; a
  detector that can panic therefore has type `List Card → Option (Option HandType)`,
  where `some none` is Rust's `None` (no match) and `some (some t)` is
  Rust's `Some(t)`.
* Rust's `sort_by(|a, b| b.cmp(a))` is a stable sort descending by rank
  (Card's Ord compares rank only).  A stable sort's result is uniquely
  determined by the comparator, so we use `List.insertionSort` with the
  relation `b.rank ≤ a.rank`, which is stable in the same sense.
* `f32` probabilities are modelled as exact rationals `ℚ`.
* The random draw of `choose_multiple` (from the external rand crate) is
  modelled by an explicit oracle `draws : Nat → List Card`; its documented
  contract (distinct cards taken from the given slice) appears as a
  hypothesis where needed.
-/

namespace RustyPoker

/-- Suit from src/card.rs; discriminants Spades=0, Clubs=1, Hearts=2, Diamonds=3. -/
inductive Suit where
  | Spades
  | Clubs
  | Hearts
  | Diamonds
deriving DecidableEq, Repr, Fintype

/-- The `Suit as usize` cast. -/
def Suit.toNat : Suit → Nat
  | .Spades => 0
  | .Clubs => 1
  | .Hearts => 2
  | .Diamonds => 3

/-- Return an array of all suits in the order in which they are enumerated
(src/card.rs `all_suits`). -/
def all_suits : List Suit := [.Spades, .Clubs, .Hearts, .Diamonds]

/-- Rank from src/card.rs, with discriminants 2..14. -/
inductive Rank where
  | two
  | three
  | four
  | five
  | six
  | seven
  | eight
  | nine
  | ten
  | jack
  | queen
  | king
  | ace
deriving DecidableEq, Repr, Fintype

/-- The `Rank as u32` / `Rank as usize` cast. -/
def Rank.toNat : Rank → Nat
  | .two => 2
  | .three => 3
  | .four => 4
  | .five => 5
  | .six => 6
  | .seven => 7
  | .eight => 8
  | .nine => 9
  | .ten => 10
  | .jack => 11
  | .queen => 12
  | .king => 13
  | .ace => 14

/-- src/card.rs `Rank::preceeds`: `(*self as u32) + 1 == (*other as u32)`. -/
def Rank.preceeds (a b : Rank) : Bool := a.toNat + 1 == b.toNat

/-- Card from src/card.rs: an immutable (rank, suit) pair. -/
structure Card where
  rank : Rank
  suit : Suit
deriving DecidableEq, Repr, Fintype

/-- src/card.rs `ranks()`: all ranks, ascending. -/
def ranks : List Rank :=
  [.two, .three, .four, .five, .six, .seven, .eight, .nine, .ten, .jack, .queen, .king, .ace]

/-- src/card.rs `all_cards()`: for each suit (Spades, Clubs, Hearts, Diamonds),
push one card per rank. -/
def all_cards : List Card :=
  (all_suits.map fun s => ranks.map fun r => Card.mk r s).flatten

/-- src/card.rs `impl Ord for Rank`: compare the numeric values. -/
def rankCmp (a b : Rank) : Ordering := compare a.toNat b.toNat

/-- src/card.rs `impl Ord for Card`: compare by rank only; suit is ignored. -/
def cardCmp (a b : Card) : Ordering := rankCmp a.rank b.rank

/-- The sort relation of `cards.sort_by(|a, b| b.cmp(a))` in src/hand_type.rs
`hand_type`: descending by rank. -/
def cardGe (a b : Card) : Prop := b.rank.toNat ≤ a.rank.toNat

instance : DecidableRel cardGe := fun a b => Nat.decLe _ _

/-- The classifier's sorting step: a stable sort, descending by rank. -/
def sortCards (cards : List Card) : List Card := List.insertionSort cardGe cards

/-- src/util.rs `card_vec_to_card_array`: the first five cards when at least
five are present, otherwise `None`. -/
def card_vec_to_card_array (cards : List Card) : Option (List Card) :=
  if 5 ≤ cards.length then some (cards.take 5) else none

/-- HandType from src/hand_type.rs, one constructor per variant in declaration
order (HighCard is discriminant 0, StraightFlush is 8). -/
inductive HandType where
  | HighCard : List Card → HandType
  | Pair : List Card → List Card → HandType
  | TwoPair : List Card → List Card → Card → HandType
  | Trips : List Card → List Card → HandType
  | Straight : List Card → HandType
  | Flush : List Card → HandType
  | FullHouse : List Card → List Card → HandType
  | Quads : List Card → Card → HandType
  | StraightFlush : List Card → HandType
deriving DecidableEq, Repr

/-- The discriminant of a HandType value, following declaration order. -/
def HandType.ctorIdx : HandType → Nat
  | .HighCard _ => 0
  | .Pair _ _ => 1
  | .TwoPair _ _ _ => 2
  | .Trips _ _ => 3
  | .Straight _ => 4
  | .Flush _ => 5
  | .FullHouse _ _ => 6
  | .Quads _ _ => 7
  | .StraightFlush _ => 8

/-- Lexicographic comparison of card sequences, mirroring the derived Ord of
Rust arrays of Card (elementwise, Card compares by rank only). -/
def listCardCmp : List Card → List Card → Ordering
  | [], [] => .eq
  | [], _ :: _ => .lt
  | _ :: _, [] => .gt
  | a :: as, b :: bs =>
    match cardCmp a b with
    | .eq => listCardCmp as bs
    | o => o

/-- The derived Ord of HandType in src/hand_type.rs: discriminant first, then
the payload fields in order, each compared lexicographically by rank. -/
def handCmp : HandType → HandType → Ordering
  | .HighCard a, .HighCard b => listCardCmp a b
  | .Pair a1 a2, .Pair b1 b2 => (listCardCmp a1 b1).then (listCardCmp a2 b2)
  | .TwoPair a1 a2 a3, .TwoPair b1 b2 b3 =>
    ((listCardCmp a1 b1).then (listCardCmp a2 b2)).then (cardCmp a3 b3)
  | .Trips a1 a2, .Trips b1 b2 => (listCardCmp a1 b1).then (listCardCmp a2 b2)
  | .Straight a, .Straight b => listCardCmp a b
  | .Flush a, .Flush b => listCardCmp a b
  | .FullHouse a1 a2, .FullHouse b1 b2 => (listCardCmp a1 b1).then (listCardCmp a2 b2)
  | .Quads a1 a2, .Quads b1 b2 => (listCardCmp a1 b1).then (cardCmp a2 b2)
  | .StraightFlush a, .StraightFlush b => listCardCmp a b
  | t1, t2 => compare t1.ctorIdx t2.ctorIdx

/-- src/hand_type.rs `group_by_suit`: the slot of suit `s` collects the input
cards of that suit in input order. -/
def group_by_suit (cards : List Card) (s : Suit) : List Card :=
  cards.filter fun c => c.suit = s

/-- The rank slot of src/hand_type.rs `group_by_rank_freq`: slot `r` of the
intermediate 15-slot array collects the input cards whose rank casts to `r`,
in input order. -/
def grouped_by_rank (cards : List Card) (r : Nat) : List Card :=
  cards.filter fun c => c.rank.toNat = r

/-- src/hand_type.rs `group_by_rank_freq`: iterate the 15 rank slots from rank
14 down to rank 0; `assert!(cv.len() < 5)` (modelled as `none` on failure),
then push each slot into the bucket indexed by its length. -/
def group_by_rank_freq (cards : List Card) : Option (List (List (List Card))) :=
  let slots := (List.range 15).reverse.map (grouped_by_rank cards)
  if slots.all fun cv => cv.length < 5 then
    some ((List.range 5).map fun k => slots.filter fun cv => cv.length = k)
  else
    none

/-- The loop body of src/hand_type.rs `get_straight` after the duplicate-rank
check: clear the streak unless the new rank immediately precedes the last one,
then push the card. -/
def nextStreak (c : Card) (last : Rank) (streak : List Card) : List Card :=
  if ¬ c.rank.preceeds last then [c] else streak ++ [c]

/-- The scan loop of src/hand_type.rs `get_straight`.  State: the last rank
seen and the streak collected so far.  Returns `(some s, last, s)` on the
early `return` (a streak of five), else `(none, last, streak)` with the final
loop state. -/
def straightGo : List Card → Rank → List Card → Option (List Card) × Rank × List Card
  | [], last, streak => (none, last, streak)
  | c :: cs, last, streak =>
    if c.rank = last then
      straightGo cs last streak
    else if (nextStreak c last streak).length = 5 then
      (some (nextStreak c last streak), c.rank, nextStreak c last streak)
    else
      straightGo cs c.rank (nextStreak c last streak)

/-- src/hand_type.rs `get_straight`.  The outer `Option` is the panic layer
(the `unwrap`s on `card_vec_to_card_array` and on `cards.get(0)`). -/
def get_straight (cards : List Card) : Option (Option HandType) :=
  if 5 ≤ cards.length then
    match straightGo cards .two [] with
    | (some s, _, _) =>
      match card_vec_to_card_array s with
      | some arr => some (some (.Straight arr))
      | none => none
    | (none, last, streak) =>
      if last = .two ∧ streak.length = 4 then
        match cards.head? with
        | some c0 =>
          if c0.rank = .ace then
            match card_vec_to_card_array (streak ++ [c0]) with
            | some arr => some (some (.Straight arr))
            | none => none
          else some none
        | none => none
      else some none
  else some none

/-- The suit loop of src/hand_type.rs `get_straight_flush`. -/
def sfGo (cards : List Card) : List Suit → Option (Option HandType)
  | [] => some none
  | s :: rest =>
    match get_straight (group_by_suit cards s) with
    | none => none
    | some (some (.Straight cs)) => some (some (.StraightFlush cs))
    | some _ => sfGo cards rest

/-- src/hand_type.rs `get_straight_flush`: try each suit in `all_suits` order. -/
def get_straight_flush (cards : List Card) : Option (Option HandType) :=
  sfGo cards all_suits

/-- The suit loop of src/hand_type.rs `get_flush`. -/
def flushGo (cards : List Card) : List Suit → Option HandType
  | [] => none
  | s :: rest =>
    match card_vec_to_card_array (group_by_suit cards s) with
    | some arr => some (.Flush arr)
    | none => flushGo cards rest

/-- src/hand_type.rs `get_flush` (no panic sites; never fails). -/
def get_flush (cards : List Card) : Option (Option HandType) :=
  some (flushGo cards all_suits)

/-- src/hand_type.rs `get_quads`: first bucket-4 group (with its length
assert), then scan for the first card of another rank as kicker. -/
def get_quads (cards : List Card) : Option (Option HandType) :=
  (group_by_rank_freq cards).bind fun buckets =>
    match (buckets.getD 4 []).head? with
    | none => some none
    | some g =>
      match g with
      | [a, b, c, d] =>
        match cards.find? fun card => card.rank ≠ a.rank with
        | some k => some (some (.Quads [a, b, c, d] k))
        | none => some none
      | _ => none

/-- src/hand_type.rs `get_full_house`: first bucket-3 group as trips; the pair
is the first bucket-2 group, else the first two cards of a second bucket-3
group, else no match.  Length asserts modelled as panics. -/
def get_full_house (cards : List Card) : Option (Option HandType) :=
  (group_by_rank_freq cards).bind fun buckets =>
    match (buckets.getD 3 []).head? with
    | none => some none
    | some g =>
      match g with
      | [t1, t2, t3] =>
        match (buckets.getD 2 []).head? with
        | some p =>
          match p with
          | [p1, p2] => some (some (.FullHouse [t1, t2, t3] [p1, p2]))
          | _ => none
        | none =>
          match (buckets.getD 3 [])[1]? with
          | some g2 =>
            match g2 with
            | [q1, q2, _] => some (some (.FullHouse [t1, t2, t3] [q1, q2]))
            | _ => none
          | none => some none
      | _ => none

/-- src/hand_type.rs `get_trips_or_pairs`.  The trips kicker loop returns the
first two cards of other ranks as soon as two are found, and otherwise falls
through to the pair logic; the two `panic!` calls are the outer `none`. -/
def get_trips_or_pairs (cards : List Card) : Option (Option HandType) :=
  (group_by_rank_freq cards).bind fun buckets =>
    let tripsBranch : Option (Option (Option HandType)) :=
      match (buckets.getD 3 []).head? with
      | some g =>
        match g with
        | [t1, t2, t3] =>
          let ks := cards.filter fun c => c.rank ≠ t1.rank
          if 2 ≤ ks.length then some (some (some (.Trips [t1, t2, t3] (ks.take 2))))
          else none
        | _ => some none
      | none => none
    match tripsBranch with
    | some (some r) => some r
    | some none => none
    | none =>
      let pairs := buckets.getD 2 []
      if 2 ≤ pairs.length then
        match pairs[0]?, pairs[1]? with
        | some [a1, a2], some [b1, b2] =>
          match cards.find? fun c => c.rank ≠ a1.rank ∧ c.rank ≠ b1.rank with
          | some k => some (some (.TwoPair [a1, a2] [b1, b2] k))
          | none => none
        | _, _ => none
      else if pairs.length = 1 then
        match pairs[0]? with
        | some [a1, a2] =>
          let ks := cards.filter fun c => c.rank ≠ a1.rank
          if 3 ≤ ks.length then some (some (.Pair [a1, a2] (ks.take 3)))
          else none
        | _ => none
      else some none

/-- src/hand_type.rs `get_high_card`: the first five cards, with the `unwrap`
on `card_vec_to_card_array` as panic layer. -/
def get_high_card (cards : List Card) : Option (Option HandType) :=
  match card_vec_to_card_array cards with
  | some arr => some (some (.HighCard arr))
  | none => none

/-- Rust's `Option::or_else` in the panic monad: a panic on the left
propagates, a match on the left short-circuits, otherwise the right side
runs. -/
def orElseP (a : Option (Option HandType)) (b : Unit → Option (Option HandType)) :
    Option (Option HandType) :=
  match a with
  | none => none
  | some (some t) => some (some t)
  | some none => b ()

/-- The detector cascade of src/hand_type.rs `hand_type` on the sorted cards;
the final `unwrap` is the last panic site. -/
def handTypeCascade (cards : List Card) : Option HandType :=
  (orElseP (get_straight_flush cards) fun _ =>
    orElseP (get_quads cards) fun _ =>
      orElseP (get_full_house cards) fun _ =>
        orElseP (get_flush cards) fun _ =>
          orElseP (get_straight cards) fun _ =>
            orElseP (get_trips_or_pairs cards) fun _ =>
              get_high_card cards).bind id

/-- src/hand_type.rs `hand_type`: concatenate hole and board, stable-sort
descending by rank, then run the detector cascade. -/
def hand_type (hand board : List Card) : Option HandType :=
  handTypeCascade (sortCards (hand ++ board))

/-- The detectors in cascade order, as listed in `hand_type`. -/
def detector_cascade : List (List Card → Option (Option HandType)) :=
  [get_straight_flush, get_quads, get_full_house, get_flush, get_straight,
   get_trips_or_pairs, get_high_card]

/-- The first detector that matches, in list order; `none` both on a panic and
when no detector matches. -/
def firstMatch : List (List Card → Option (Option HandType)) → List Card → Option HandType
  | [], _ => none
  | d :: ds, cs =>
    match d cs with
    | none => none
    | some (some t) => some t
    | some none => firstMatch ds cs

/-- HandEquity from src/equity.rs; the two `f32` probabilities are modelled as
exact rationals. -/
structure HandEquity where
  pwin : ℚ
  pdraw : ℚ
deriving DecidableEq, Repr

/-- Rust's `v.remove(v.iter().position(|x| x == c).unwrap())`: drop the first
occurrence of `c`, or panic (`none`) when `c` is absent. -/
def removeFirst : List Card → Card → Option (List Card)
  | [], _ => none
  | x :: xs, c => if x = c then some xs else (removeFirst xs c).map (x :: ·)

/-- Remove one occurrence of each card of `ds` from `l` in order, propagating
the panic of a failed position lookup. -/
def removeEach (l : List Card) (ds : List Card) : Option (List Card) :=
  ds.foldl (fun acc c => acc.bind fun cur => removeFirst cur c) (some l)

/-- The deck construction of src/equity.rs `hand_vs_hand`: start from
`all_cards`, remove the dead cards `h1 ++ h2`, then remove the board. -/
def build_remaining_deck (h1 h2 board : List Card) : Option (List Card) :=
  (removeEach all_cards (h1 ++ h2)).bind fun deck => removeEach deck board

/-- The trial loop of src/equity.rs `hand_vs_hand`.  The tallies are
`(p1_wins, p2_wins, ties)`.  Each trial appends the drawn cards `draws i` to
the shared board, classifies both hands, updates one tally by the comparison
`hand_type(h1).cmp(hand_type(h2))`, and removes the drawn cards again.
Returns the final tallies and board, or `none` on a panic.  The tally update
is split out as `tallyStep`: Less means player 2 wins, Equal a tie, Greater a
player-1 win. -/
def tallyStep (t : Nat × Nat × Nat) : Ordering → Nat × Nat × Nat
  | .lt => (t.1, t.2.1 + 1, t.2.2)
  | .eq => (t.1, t.2.1, t.2.2 + 1)
  | .gt => (t.1 + 1, t.2.1, t.2.2)

def equityLoop (h1 h2 : List Card) (draws : Nat → List Card) :
    Nat → Nat → List Card → Nat × Nat × Nat → Option ((Nat × Nat × Nat) × List Card)
  | _, 0, board, t => some (t, board)
  | i, k + 1, board, t =>
    (hand_type h1 (board ++ draws i)).bind fun t1 =>
      (hand_type h2 (board ++ draws i)).bind fun t2 =>
        (removeEach (board ++ draws i) (draws i)).bind fun board2 =>
          equityLoop h1 h2 draws (i + 1) k board2 (tallyStep t (handCmp t1 t2))

/-- src/equity.rs `hand_vs_hand`, with the random `choose_multiple` calls
replaced by the oracle `draws` (trial `i` draws `draws i`). -/
def hand_vs_hand (h1 h2 board : List Card) (num_trials : Nat)
    (draws : Nat → List Card) : Option (HandEquity × HandEquity) :=
  (build_remaining_deck h1 h2 board).bind fun _ =>
    (equityLoop h1 h2 draws 0 num_trials board (0, 0, 0)).map fun r =>
      (⟨(r.1.1 : ℚ) / (num_trials : ℚ), (r.1.2.2 : ℚ) / (num_trials : ℚ)⟩,
       ⟨(r.1.2.1 : ℚ) / (num_trials : ℚ), (r.1.2.2 : ℚ) / (num_trials : ℚ)⟩)

/-! Basic facts about ranks, suits and rank groups. -/

/-- The rank indices 14, 13, ..., 0 in the order the bucket loop visits them. -/
def descRanks : List Nat := (List.range 15).reverse

/-- A five-of-a-kind input used to exercise the grouping assert. -/
def fiveAces : List Card :=
  [⟨.ace, .Spades⟩, ⟨.ace, .Clubs⟩, ⟨.ace, .Hearts⟩, ⟨.ace, .Diamonds⟩, ⟨.ace, .Spades⟩]

/-- A concrete 7-card hand with three kings and two queens. -/
def kingsHand : List Card :=
  [⟨.king, .Spades⟩, ⟨.king, .Clubs⟩, ⟨.king, .Hearts⟩, ⟨.queen, .Clubs⟩,
   ⟨.queen, .Spades⟩, ⟨.jack, .Clubs⟩, ⟨.ten, .Clubs⟩]

/-- A concrete two-pair hand of seven distinct cards. -/
def twoPairHand : List Card :=
  [⟨.ace, .Spades⟩, ⟨.king, .Clubs⟩, ⟨.king, .Diamonds⟩, ⟨.eight, .Hearts⟩,
   ⟨.eight, .Clubs⟩, ⟨.five, .Clubs⟩, ⟨.four, .Clubs⟩]

/-- The rank values of a HandType payload, concatenated in the declared field
order (high cards first within each field). -/
def payloadRanks : HandType → List Nat
  | .HighCard a => a.map fun c => c.rank.toNat
  | .Pair a b => (a ++ b).map fun c => c.rank.toNat
  | .TwoPair a b c => (a ++ b ++ [c]).map fun c => c.rank.toNat
  | .Trips a b => (a ++ b).map fun c => c.rank.toNat
  | .Straight a => a.map fun c => c.rank.toNat
  | .Flush a => a.map fun c => c.rank.toNat
  | .FullHouse a b => (a ++ b).map fun c => c.rank.toNat
  | .Quads a b => (a ++ [b]).map fun c => c.rank.toNat
  | .StraightFlush a => a.map fun c => c.rank.toNat

/-- Lexicographic comparison of rank-value sequences. -/
def lexNat : List Nat → List Nat → Ordering
  | [], [] => .eq
  | [], _ :: _ => .lt
  | _ :: _, [] => .gt
  | a :: as, b :: bs => (compare a b).then (lexNat as bs)

/-- The payload shapes actually produced by the detectors: each field carries
exactly as many cards as the Rust fixed-size array it models. -/
def wellFormedPayload : HandType → Bool
  | .HighCard a => a.length == 5
  | .Pair a b => a.length == 2 && b.length == 3
  | .TwoPair a b _ => a.length == 2 && b.length == 2
  | .Trips a b => a.length == 3 && b.length == 2
  | .Straight a => a.length == 5
  | .Flush a => a.length == 5
  | .FullHouse a b => a.length == 3 && b.length == 2
  | .Quads a _ => a.length == 4
  | .StraightFlush a => a.length == 5

/-- A concrete well-formed Straight payload. -/
def straightEx : HandType :=
  .Straight [⟨.nine, .Spades⟩, ⟨.eight, .Hearts⟩, ⟨.seven, .Clubs⟩, ⟨.six, .Diamonds⟩,
    ⟨.five, .Spades⟩]

/-- A concrete well-formed Flush payload. -/
def flushEx : HandType :=
  .Flush [⟨.king, .Clubs⟩, ⟨.ten, .Clubs⟩, ⟨.nine, .Clubs⟩, ⟨.five, .Clubs⟩,
    ⟨.four, .Clubs⟩]

/-- A concrete hand with three tens and three eights. -/
def boatHand : List Card :=
  [⟨.ace, .Clubs⟩, ⟨.ten, .Diamonds⟩, ⟨.ten, .Hearts⟩, ⟨.ten, .Spades⟩,
   ⟨.eight, .Spades⟩, ⟨.eight, .Hearts⟩, ⟨.eight, .Diamonds⟩]

/-- The wheel test hand, already sorted rank-descending. -/
def wheelSorted : List Card :=
  [⟨.ace, .Clubs⟩, ⟨.king, .Spades⟩, ⟨.nine, .Diamonds⟩, ⟨.five, .Clubs⟩,
   ⟨.four, .Hearts⟩, ⟨.three, .Spades⟩, ⟨.two, .Diamonds⟩]

/-- A pair of hole-card lists that overlap (both contain the ace of spades). -/
def overlapHole1 : List Card := [⟨.ace, .Spades⟩, ⟨.king, .Diamonds⟩]

/-- The second overlapping hole-card list. -/
def overlapHole2 : List Card := [⟨.ace, .Spades⟩, ⟨.queen, .Diamonds⟩]

/-- A valid pair of disjoint hole-card lists. -/
def validHole1 : List Card := [⟨.ace, .Spades⟩, ⟨.ace, .Clubs⟩]

/-- The second valid hole-card list. -/
def validHole2 : List Card := [⟨.king, .Spades⟩, ⟨.king, .Clubs⟩]

/-- The comparison outcome of trial `i`: player 1's hand against player 2's
hand on the board completed with `draws i` (Equal when a hand fails to
classify, which cannot happen on valid inputs). -/
def trialCmp (h1 h2 board : List Card) (draws : Nat → List Card) (i : Nat) : Ordering :=
  match hand_type h1 (board ++ draws i), hand_type h2 (board ++ draws i) with
  | some t1, some t2 => handCmp t1 t2
  | _, _ => .eq

/-- A fixed 5-card board disjoint from the example holes. -/
def board5 : List Card :=
  [⟨.two, .Spades⟩, ⟨.three, .Hearts⟩, ⟨.four, .Diamonds⟩, ⟨.five, .Spades⟩,
   ⟨.nine, .Clubs⟩]

/-- Rank-level equivalence of card lists: same length, pointwise equal ranks
(the suits may differ). -/
def RankEqL (l1 l2 : List Card) : Prop :=
  List.Forall₂ (fun a b => a.rank = b.rank) l1 l2

/-- Lift a relation to `Option`: both absent, or both present and related. -/
def optRel {α : Type} (R : α → α → Prop) : Option α → Option α → Prop
  | none, none => True
  | some a, some b => R a b
  | _, _ => False

/-- Same constructor and rank-equal payload fields. -/
def htRankEq : HandType → HandType → Prop
  | .HighCard a, .HighCard b => RankEqL a b
  | .Pair a1 a2, .Pair b1 b2 => RankEqL a1 b1 ∧ RankEqL a2 b2
  | .TwoPair a1 a2 a3, .TwoPair b1 b2 b3 =>
    RankEqL a1 b1 ∧ RankEqL a2 b2 ∧ a3.rank = b3.rank
  | .Trips a1 a2, .Trips b1 b2 => RankEqL a1 b1 ∧ RankEqL a2 b2
  | .Straight a, .Straight b => RankEqL a b
  | .Flush a, .Flush b => RankEqL a b
  | .FullHouse a1 a2, .FullHouse b1 b2 => RankEqL a1 b1 ∧ RankEqL a2 b2
  | .Quads a1 a2, .Quads b1 b2 => RankEqL a1 b1 ∧ a2.rank = b2.rank
  | .StraightFlush a, .StraightFlush b => RankEqL a b
  | _, _ => False

/-- Strict descending-by-rank relation on cards. -/
def cardGt (a b : Card) : Prop := b.rank.toNat < a.rank.toNat

instance : IsTotal Card cardGe := ⟨fun a b => Nat.le_total b.rank.toNat a.rank.toNat⟩

instance : IsTrans Card cardGe := ⟨fun _ _ _ h1 h2 => Nat.le_trans h2 h1⟩

instance : IsAntisymm Card cardGt :=
  ⟨fun _ _ h1 h2 => absurd (Nat.lt_trans h1 h2) (Nat.lt_irrefl _)⟩

/-- The pair logic of src/hand_type.rs `get_trips_or_pairs` (the code run when
the trips branch falls through), on already-computed buckets. -/
def tpPairsBranch (cards : List Card) (buckets : List (List (List Card))) :
    Option (Option HandType) :=
  if 2 ≤ (buckets.getD 2 []).length then
    match (buckets.getD 2 [])[0]?, (buckets.getD 2 [])[1]? with
    | some [a1, a2], some [b1, b2] =>
      match cards.find? fun c => c.rank ≠ a1.rank ∧ c.rank ≠ b1.rank with
      | some k => some (some (.TwoPair [a1, a2] [b1, b2] k))
      | none => none
    | _, _ => none
  else if (buckets.getD 2 []).length = 1 then
    match (buckets.getD 2 [])[0]? with
    | some [a1, a2] =>
      if 3 ≤ (cards.filter fun c => c.rank ≠ a1.rank).length then
        some (some (.Pair [a1, a2] ((cards.filter fun c => c.rank ≠ a1.rank).take 3)))
      else none
    | _ => none
  else some none

/-- A board on which the two orderings of pocket aces are told apart by the
suit stored in the returned Straight payload. -/
def board7 : List Card :=
  [⟨.king, .Diamonds⟩, ⟨.queen, .Diamonds⟩, ⟨.jack, .Diamonds⟩, ⟨.ten, .Diamonds⟩,
   ⟨.nine, .Clubs⟩]

lemma Rank.toNat_inj : ∀ {r s : Rank}, r.toNat = s.toNat → r = s := by decide

lemma Rank.two_le_toNat : ∀ r : Rank, 2 ≤ r.toNat := by decide

lemma Rank.toNat_le_14 : ∀ r : Rank, r.toNat ≤ 14 := by decide

lemma mem_grouped_by_rank {cards : List Card} {r : Nat} {c : Card} :
    c ∈ grouped_by_rank cards r ↔ c ∈ cards ∧ c.rank.toNat = r := by
  simp [grouped_by_rank]

lemma grouped_by_rank_rank {cards : List Card} {r : Nat} {c : Card}
    (h : c ∈ grouped_by_rank cards r) : c.rank.toNat = r :=
  (mem_grouped_by_rank.mp h).2

lemma grouped_by_rank_subset {cards : List Card} {r : Nat} {c : Card}
    (h : c ∈ grouped_by_rank cards r) : c ∈ cards :=
  (mem_grouped_by_rank.mp h).1

/-- With distinct cards, at most four cards (one per suit) share a rank. -/
lemma grouped_by_rank_length_le {cards : List Card} (h : cards.Nodup) (r : Nat) :
    (grouped_by_rank cards r).length ≤ 4 := by
  have hsub : (grouped_by_rank cards r).Nodup := h.filter _
  have hmap : ((grouped_by_rank cards r).map Card.suit).Nodup := by
    refine List.Nodup.map_on ?_ hsub
    intro x hx y hy hxy
    have hxr := (mem_grouped_by_rank.mp hx).2
    have hyr := (mem_grouped_by_rank.mp hy).2
    have hr : x.rank = y.rank := Rank.toNat_inj (hxr.trans hyr.symm)
    cases x
    cases y
    simp_all
  have hlen := hmap.length_le_card
  have hcard : Fintype.card Suit = 4 := by decide
  rw [List.length_map, hcard] at hlen
  exact hlen

/-- Removing the cards of one rank removes exactly that rank group. -/
lemma length_filter_ne_rank (cards : List Card) (rk : Rank) :
    (cards.filter fun c => c.rank ≠ rk).length
      + (grouped_by_rank cards rk.toNat).length = cards.length := by
  induction cards with
  | nil => rfl
  | cons a l ih =>
    by_cases h : a.rank = rk
    · have h2 : a.rank.toNat = rk.toNat := by rw [h]
      simp only [grouped_by_rank, List.filter_cons] at *
      simp [h, h2] at *
      omega
    · have h2 : ¬ a.rank.toNat = rk.toNat := fun hc => h (Rank.toNat_inj hc)
      simp only [grouped_by_rank, List.filter_cons] at *
      simp [h, h2] at *
      omega

/-- Removing the cards of two distinct ranks removes exactly those two
rank groups. -/
lemma length_filter_ne_two_ranks (cards : List Card) {r1 r2 : Rank} (hne : r1 ≠ r2) :
    (cards.filter fun c => c.rank ≠ r1 ∧ c.rank ≠ r2).length
      + (grouped_by_rank cards r1.toNat).length
      + (grouped_by_rank cards r2.toNat).length = cards.length := by
  have hne1 : ¬ r1.toNat = r2.toNat := fun hc => hne (Rank.toNat_inj hc)
  have hne2 : ¬ r2.toNat = r1.toNat := fun hc => hne (Rank.toNat_inj hc).symm
  induction cards with
  | nil => rfl
  | cons a l ih =>
    by_cases h1 : a.rank = r1
    · have h1n : a.rank.toNat = r1.toNat := by rw [h1]
      have h2 : ¬ a.rank = r2 := by rw [h1]; exact hne
      have h2n : ¬ a.rank.toNat = r2.toNat := fun hc => h2 (Rank.toNat_inj hc)
      simp only [grouped_by_rank, List.filter_cons] at *
      simp [h1, h1n, h2, h2n, hne1, hne2] at *
      omega
    · by_cases h2 : a.rank = r2
      · have h2n : a.rank.toNat = r2.toNat := by rw [h2]
        have h1n : ¬ a.rank.toNat = r1.toNat := fun hc => h1 (Rank.toNat_inj hc)
        simp only [grouped_by_rank, List.filter_cons] at *
        simp [h1, h1n, h2, h2n, hne1, hne2] at *
        omega
      · have h1n : ¬ a.rank.toNat = r1.toNat := fun hc => h1 (Rank.toNat_inj hc)
        have h2n : ¬ a.rank.toNat = r2.toNat := fun hc => h2 (Rank.toNat_inj hc)
        simp only [grouped_by_rank, List.filter_cons] at *
        simp [h1, h1n, h2, h2n, hne1, hne2] at *
        omega

/-! Characterization of the rank-frequency buckets. -/

lemma descRanks_pairwise : descRanks.Pairwise (· > ·) := by
  have h := List.pairwise_lt_range 15
  exact List.pairwise_reverse.mpr (by simpa [flip] using h)

lemma mem_descRanks {r : Nat} : r ∈ descRanks ↔ r < 15 := by
  simp [descRanks]

lemma gbrf_eq_some {cards : List Card}
    (h : ∀ r : Rank, (grouped_by_rank cards r.toNat).length ≤ 4) :
    group_by_rank_freq cards =
      some ((List.range 5).map fun k =>
        (descRanks.filter fun r => (grouped_by_rank cards r).length = k).map
          (grouped_by_rank cards)) := by
  have hslot : ∀ r : Nat, (grouped_by_rank cards r).length ≤ 4 := by
    intro r
    by_cases hr : ∃ rk : Rank, rk.toNat = r
    · obtain ⟨rk, rfl⟩ := hr
      exact h rk
    · have : grouped_by_rank cards r = [] := by
        refine List.filter_eq_nil_iff.mpr fun c _ hc => hr ⟨c.rank, by simpa using hc⟩
      simp [this]
  unfold group_by_rank_freq
  rw [if_pos]
  · congr 1
    refine List.map_congr_left fun k _ => ?_
    exact List.filter_map (grouped_by_rank cards) descRanks
  · refine List.all_eq_true.mpr fun cv hcv => ?_
    obtain ⟨r, _, rfl⟩ := List.mem_map.mp hcv
    exact decide_eq_true (Nat.lt_succ_of_le (hslot r))

lemma gbrf_counts {cards : List Card} {B : List (List (List Card))}
    (hB : group_by_rank_freq cards = some B) :
    ∀ r : Nat, (grouped_by_rank cards r).length ≤ 4 := by
  intro r
  unfold group_by_rank_freq at hB
  simp only at hB
  split at hB
  case isTrue hall =>
    by_cases hr : r < 15
    · have hmem : grouped_by_rank cards r ∈
          (List.range 15).reverse.map (grouped_by_rank cards) :=
        List.mem_map.mpr ⟨r, by simpa using hr, rfl⟩
      have h5 := List.all_eq_true.mp hall _ hmem
      simp at h5
      omega
    · have : grouped_by_rank cards r = [] := by
        refine List.filter_eq_nil_iff.mpr fun c _ hc => ?_
        have h14 := Rank.toNat_le_14 c.rank
        have hc2 : c.rank.toNat = r := by simpa using hc
        omega
      simp [this]
  case isFalse => cases hB

lemma gbrf_of_nodup {cards : List Card} (h : cards.Nodup) :
    group_by_rank_freq cards =
      some ((List.range 5).map fun k =>
        (descRanks.filter fun r => (grouped_by_rank cards r).length = k).map
          (grouped_by_rank cards)) :=
  gbrf_eq_some fun r => grouped_by_rank_length_le h r.toNat

lemma gbrf_getD {cards : List Card} {B : List (List (List Card))} {k : Nat}
    (hB : group_by_rank_freq cards = some B) (hk : k < 5) :
    B.getD k [] =
      (descRanks.filter fun r => (grouped_by_rank cards r).length = k).map
        (grouped_by_rank cards) := by
  have hB2 := gbrf_eq_some (fun r : Rank => gbrf_counts hB r.toNat)
  rw [hB] at hB2
  obtain rfl : B = _ := Option.some_injective _ hB2
  rw [List.getD_eq_getElem?_getD, List.getElem?_map, List.getElem?_range hk]
  rfl

lemma mem_bucket {cards : List Card} {B : List (List (List Card))} {k : Nat}
    {g : List Card} (hB : group_by_rank_freq cards = some B) (hk : k < 5) :
    g ∈ B.getD k [] ↔
      ∃ r, r < 15 ∧ (grouped_by_rank cards r).length = k ∧ g = grouped_by_rank cards r := by
  rw [gbrf_getD hB hk]
  constructor
  · intro hg
    obtain ⟨r, hr, rfl⟩ := List.mem_map.mp hg
    have hr2 := List.mem_filter.mp hr
    exact ⟨r, mem_descRanks.mp hr2.1, by simpa using hr2.2, rfl⟩
  · rintro ⟨r, hr15, hlen, rfl⟩
    exact List.mem_map.mpr ⟨r, List.mem_filter.mpr ⟨mem_descRanks.mpr hr15, by simpa using hlen⟩, rfl⟩

/-! First and second elements of a filtered strictly descending list. -/

lemma head_filter_of_desc {l : List Nat} (hl : l.Pairwise (· > ·)) {p : Nat → Bool} {x : Nat}
    (hx : x ∈ l) (hpx : p x = true) (hmax : ∀ y ∈ l, p y = true → y ≤ x) :
    (l.filter p).head? = some x := by
  induction l with
  | nil => cases hx
  | cons a t ih =>
    rcases List.mem_cons.mp hx with rfl | hx2
    · rw [List.filter_cons_of_pos hpx]
      rfl
    · have hgt : a > x := (List.pairwise_cons.mp hl).1 x hx2
      have hpa : ¬ p a = true := fun hpa =>
        absurd (hmax a (List.mem_cons_self a t) hpa) (by omega)
      rw [List.filter_cons_of_neg hpa]
      exact ih (List.pairwise_cons.mp hl).2 hx2
        fun y hy hpy => hmax y (List.mem_cons_of_mem _ hy) hpy

lemma filter_of_desc_single {l : List Nat} (hl : l.Pairwise (· > ·)) {p : Nat → Bool} {x : Nat}
    (hx : x ∈ l) (hpx : p x = true) (honly : ∀ y ∈ l, p y = true → y = x) :
    l.filter p = [x] := by
  induction l with
  | nil => cases hx
  | cons a t ih =>
    rcases List.mem_cons.mp hx with rfl | hx2
    · rw [List.filter_cons_of_pos hpx]
      have ht : t.filter p = [] := by
        refine List.filter_eq_nil_iff.mpr fun y hy hpy => ?_
        have h1 := honly y (List.mem_cons_of_mem _ hy) hpy
        have h2 := (List.pairwise_cons.mp hl).1 y hy
        omega
      rw [ht]
    · have hgt : a > x := (List.pairwise_cons.mp hl).1 x hx2
      have hpa : ¬ p a = true := fun hpa => by
        have := honly a (List.mem_cons_self a t) hpa
        omega
      rw [List.filter_cons_of_neg hpa]
      exact ih (List.pairwise_cons.mp hl).2 hx2
        fun y hy hpy => honly y (List.mem_cons_of_mem _ hy) hpy

lemma filter_of_desc_pair {l : List Nat} (hl : l.Pairwise (· > ·)) {p : Nat → Bool}
    {x y : Nat} (hxy : y < x) (hx : x ∈ l) (hy : y ∈ l)
    (hpx : p x = true) (hpy : p y = true)
    (honly : ∀ z ∈ l, p z = true → z = x ∨ z = y) :
    l.filter p = [x, y] := by
  induction l with
  | nil => cases hx
  | cons a t ih =>
    by_cases hpa : p a = true
    · rcases honly a (List.mem_cons_self a t) hpa with rfl | rfl
      · rw [List.filter_cons_of_pos hpa]
        have hyt : y ∈ t := by
          rcases List.mem_cons.mp hy with rfl | h
          · omega
          · exact h
        have ht : t.filter p = [y] := by
          refine filter_of_desc_single (List.pairwise_cons.mp hl).2 hyt hpy
            fun z hz hpz => ?_
          rcases honly z (List.mem_cons_of_mem _ hz) hpz with rfl | rfl
          · exact absurd ((List.pairwise_cons.mp hl).1 z hz) (by omega)
          · rfl
        rw [ht]
      · exfalso
        rcases List.mem_cons.mp hx with rfl | hxt
        · omega
        · have := (List.pairwise_cons.mp hl).1 x hxt
          omega
    · have hxt : x ∈ t := by
        rcases List.mem_cons.mp hx with rfl | h
        · exact absurd hpx hpa
        · exact h
      have hyt : y ∈ t := by
        rcases List.mem_cons.mp hy with rfl | h
        · exact absurd hpy hpa
        · exact h
      rw [List.filter_cons_of_neg hpa]
      exact ih (List.pairwise_cons.mp hl).2 hxt hyt
        fun z hz hpz => honly z (List.mem_cons_of_mem _ hz) hpz

/-- C9: for every input card list in which each rank occurs at most 4 times,
group_by_rank_freq places, for each rank present, the full set of same-rank
cards (the rank's filter group) as one atomic group in the bucket indexed by
that rank's occurrence count, with higher-rank groups before lower-rank groups
within each bucket; if some rank occurs 5 or more times the function fails at
construction time (the assert, modelled as `none`). -/
theorem C9_group_by_rank_freq (cards : List Card) :
    ((∃ r : Rank, 5 ≤ (grouped_by_rank cards r.toNat).length) →
        group_by_rank_freq cards = none)
    ∧ (∀ B, group_by_rank_freq cards = some B →
        (∀ r : Rank, grouped_by_rank cards r.toNat ≠ [] →
            grouped_by_rank cards r.toNat ∈
              B.getD (grouped_by_rank cards r.toNat).length [])
        ∧ ∀ k, k < 5 → (B.getD k []).Pairwise
            fun g1 g2 => ∀ c1 ∈ g1, ∀ c2 ∈ g2, c2.rank.toNat < c1.rank.toNat) := by
  constructor
  · rintro ⟨r, hr⟩
    unfold group_by_rank_freq
    simp only
    rw [if_neg]
    intro hall
    have hmem : grouped_by_rank cards r.toNat ∈
        (List.range 15).reverse.map (grouped_by_rank cards) := by
      refine List.mem_map.mpr ⟨r.toNat, ?_, rfl⟩
      have := Rank.toNat_le_14 r
      simp
      omega
    have h5 := List.all_eq_true.mp hall _ hmem
    simp at h5
    omega
  · intro B hB
    constructor
    · intro r hr
      have hlen := gbrf_counts hB r.toNat
      have hk : (grouped_by_rank cards r.toNat).length < 5 := by omega
      refine (mem_bucket hB hk).mpr ⟨r.toNat, ?_, rfl, rfl⟩
      have := Rank.toNat_le_14 r
      omega
    · intro k hk
      rw [gbrf_getD hB hk]
      refine List.Pairwise.map _ ?_ (descRanks_pairwise.filter _)
      intro r1 r2 hgt c1 hc1 c2 hc2
      have h1 := grouped_by_rank_rank hc1
      have h2 := grouped_by_rank_rank hc2
      omega

/-- Witness for C9: a rank occurring five times is rejected, and in a concrete
7-card hand the three kings form one group in the bucket of index 3. -/
theorem C9_group_by_rank_freq_witness :
    group_by_rank_freq fiveAces = none
    ∧ ∃ B, group_by_rank_freq kingsHand = some B ∧
        grouped_by_rank kingsHand Rank.king.toNat ∈
          B.getD (grouped_by_rank kingsHand Rank.king.toNat).length [] := by
  constructor
  · exact (C9_group_by_rank_freq _).1 ⟨Rank.ace, by decide⟩
  · have hB : group_by_rank_freq kingsHand =
        some ((List.range 5).map fun k =>
          (descRanks.filter fun r => (grouped_by_rank kingsHand r).length = k).map
            (grouped_by_rank kingsHand)) :=
      gbrf_eq_some (by decide)
    exact ⟨_, hB, ((C9_group_by_rank_freq _).2 _ hB).1 Rank.king (by decide)⟩

/-! Panic-freedom of get_trips_or_pairs on well-formed 7-card inputs. -/

lemma list_len_two {α : Type} {l : List α} (h : l.length = 2) : ∃ a b, l = [a, b] := by
  match l, h with
  | [a, b], _ => exact ⟨a, b, rfl⟩

lemma list_len_three {α : Type} {l : List α} (h : l.length = 3) : ∃ a b c, l = [a, b, c] := by
  match l, h with
  | [a, b, c], _ => exact ⟨a, b, c, rfl⟩

lemma bucket_pairwise_ranks {cards : List Card} {B : List (List (List Card))} {k : Nat}
    (hB : group_by_rank_freq cards = some B) (hk : k < 5) :
    (B.getD k []).Pairwise
      fun g1 g2 => ∀ c1 ∈ g1, ∀ c2 ∈ g2, c2.rank.toNat < c1.rank.toNat := by
  rw [gbrf_getD hB hk]
  refine List.Pairwise.map _ ?_ (descRanks_pairwise.filter _)
  intro r1 r2 hgt c1 hc1 c2 hc2
  have h1 := grouped_by_rank_rank hc1
  have h2 := grouped_by_rank_rank hc2
  omega

lemma get_trips_or_pairs_isSome {cards : List Card} (h7 : cards.length = 7)
    (hnd : cards.Nodup) : get_trips_or_pairs cards ≠ none := by
  have hB := gbrf_of_nodup hnd
  unfold get_trips_or_pairs
  rw [hB]
  simp only [Option.some_bind]
  set B := ((List.range 5).map fun k =>
      (descRanks.filter fun r => (grouped_by_rank cards r).length = k).map
        (grouped_by_rank cards)) with hBdef
  rcases h3 : (B.getD 3 []).head? with _ | g
  · -- no trips group: the pair logic runs
    simp only [h3]
    set P := B.getD 2 [] with hPdef
    by_cases hp2 : 2 ≤ P.length
    · rw [if_pos hp2]
      rcases hg0 : P[0]? with _ | g1
      · rw [List.getElem?_eq_none_iff] at hg0
        omega
      rcases hg1 : P[1]? with _ | g2
      · rw [List.getElem?_eq_none_iff] at hg1
        omega
      have hg1mem : g1 ∈ P := by
        obtain ⟨hlt, hg⟩ := List.getElem?_eq_some.mp hg0
        rw [← hg]
        exact List.getElem_mem hlt
      have hg2mem : g2 ∈ P := by
        obtain ⟨hlt, hg⟩ := List.getElem?_eq_some.mp hg1
        rw [← hg]
        exact List.getElem_mem hlt
      obtain ⟨r1, hr1lt, hlen1, heq1⟩ := (mem_bucket hB (by omega)).mp hg1mem
      obtain ⟨r2, hr2lt, hlen2, heq2⟩ := (mem_bucket hB (by omega)).mp hg2mem
      obtain ⟨a1, a2, hg1e⟩ := @list_len_two _ g1 (by rw [heq1]; exact hlen1)
      obtain ⟨b1, b2, hg2e⟩ := @list_len_two _ g2 (by rw [heq2]; exact hlen2)
      -- ranks of the two pair groups are distinct
      have hpw := bucket_pairwise_ranks hB (show (2 : Nat) < 5 by omega)
      rw [List.pairwise_iff_getElem] at hpw
      obtain ⟨hlt0, hP0⟩ := List.getElem?_eq_some.mp hg0
      obtain ⟨hlt1, hP1⟩ := List.getElem?_eq_some.mp hg1
      have hrel := hpw 0 1 hlt0 hlt1 (by omega)
      rw [hP0, hP1] at hrel
      have ha1g : a1 ∈ g1 := by rw [hg1e]; exact List.mem_cons_self _ _
      have hb1g : b1 ∈ g2 := by rw [hg2e]; exact List.mem_cons_self _ _
      have hlt := hrel a1 ha1g b1 hb1g
      have hne : a1.rank ≠ b1.rank := fun hc => by rw [hc] at hlt; omega
      -- the kicker exists
      have ha1r : a1.rank.toNat = r1 := grouped_by_rank_rank (heq1 ▸ ha1g)
      have hb1r : b1.rank.toNat = r2 := grouped_by_rank_rank (heq2 ▸ hb1g)
      have hflen := length_filter_ne_two_ranks cards hne
      rw [ha1r, hb1r, ← heq1, ← heq2, hg1e, hg2e] at hflen
      simp only [List.length_cons, List.length_nil] at hflen
      have hpos : 0 < (cards.filter fun c => c.rank ≠ a1.rank ∧ c.rank ≠ b1.rank).length := by
        omega
      obtain ⟨c0, hc0⟩ := List.exists_mem_of_length_pos hpos
      have hc0p := List.mem_filter.mp hc0
      have hiss : (cards.find? fun c =>
          decide (c.rank ≠ a1.rank ∧ c.rank ≠ b1.rank)).isSome =  true :=
        List.find?_isSome.mpr ⟨c0, hc0p.1, hc0p.2⟩
      rcases hfind : cards.find? (fun c => decide (c.rank ≠ a1.rank ∧ c.rank ≠ b1.rank))
          with _ | k0
      · rw [hfind] at hiss
        cases hiss
      · simp only [hg0, hg1, hg1e, hg2e, hfind]
        simp
    · rw [if_neg hp2]
      by_cases hp1 : P.length = 1
      · rw [if_pos hp1]
        rcases hg0 : P[0]? with _ | g1
        · rw [List.getElem?_eq_none_iff] at hg0
          omega
        have hg1mem : g1 ∈ P := by
          obtain ⟨hlt, hg⟩ := List.getElem?_eq_some.mp hg0
          rw [← hg]
          exact List.getElem_mem hlt
        obtain ⟨r1, hr1lt, hlen1, heq1⟩ := (mem_bucket hB (by omega)).mp hg1mem
        obtain ⟨a1, a2, hg1e⟩ := @list_len_two _ g1 (by rw [heq1]; exact hlen1)
        have ha1g : a1 ∈ g1 := by rw [hg1e]; exact List.mem_cons_self _ _
        have ha1r : a1.rank.toNat = r1 := grouped_by_rank_rank (heq1 ▸ ha1g)
        have hks := length_filter_ne_rank cards a1.rank
        rw [ha1r, ← heq1, hg1e] at hks
        simp only [List.length_cons, List.length_nil] at hks
        have h3le : 3 ≤ (cards.filter fun c => c.rank ≠ a1.rank).length := by omega
        simp only [hg0, hg1e]
        rw [if_pos h3le]
        simp
      · rw [if_neg hp1]
        simp
  · -- a trips group exists: the trips branch returns
    simp only [h3]
    have hgmem : g ∈ B.getD 3 [] :=
      List.mem_of_mem_head? (Option.mem_def.mpr h3)
    obtain ⟨r, hrlt, hlen, heq⟩ := (mem_bucket hB (by omega)).mp hgmem
    obtain ⟨t1, t2, t3, hge⟩ := @list_len_three _ g (by rw [heq]; exact hlen)
    have ht1g : t1 ∈ g := by rw [hge]; exact List.mem_cons_self _ _
    have ht1r : t1.rank.toNat = r := grouped_by_rank_rank (heq ▸ ht1g)
    have hks := length_filter_ne_rank cards t1.rank
    rw [ht1r, ← heq, hge] at hks
    simp only [List.length_cons, List.length_nil] at hks
    have h2le : 2 ≤ (cards.filter fun c => c.rank ≠ t1.rank).length := by omega
    simp only [hge]
    rw [if_pos h2le]
    simp

/-- C10: for every 7-card input consisting of distinct cards the two panic
branches of get_trips_or_pairs are unreachable: whenever two occurrence-2
groups exist a kicker of a third rank exists among the cards, whenever one
occurrence-2 group exists at least three cards of other ranks exist, and the
function never panics (never returns the panic marker `none`). -/
theorem C10_get_trips_or_pairs_no_panic {cards : List Card}
    (h7 : cards.length = 7) (hnd : cards.Nodup) :
    get_trips_or_pairs cards ≠ none
    ∧ (∀ r1 r2 : Rank, r1 ≠ r2 →
        (grouped_by_rank cards r1.toNat).length = 2 →
        (grouped_by_rank cards r2.toNat).length = 2 →
        ∃ c ∈ cards, c.rank ≠ r1 ∧ c.rank ≠ r2)
    ∧ ∀ r : Rank, (grouped_by_rank cards r.toNat).length = 2 →
        3 ≤ (cards.filter fun c => c.rank ≠ r).length := by
  refine ⟨get_trips_or_pairs_isSome h7 hnd, ?_, ?_⟩
  · intro r1 r2 hne h1 h2
    have hflen := length_filter_ne_two_ranks cards hne
    rw [h1, h2, h7] at hflen
    have hpos : 0 < (cards.filter fun c => c.rank ≠ r1 ∧ c.rank ≠ r2).length := by omega
    obtain ⟨c0, hc0⟩ := List.exists_mem_of_length_pos hpos
    have h := List.mem_filter.mp hc0
    exact ⟨c0, h.1, by simpa using h.2⟩
  · intro r h2
    have hks := length_filter_ne_rank cards r
    rw [h2, h7] at hks
    omega

/-- Witness for C10 at a concrete two-pair hand. -/
theorem C10_get_trips_or_pairs_no_panic_witness :
    get_trips_or_pairs twoPairHand ≠ none
    ∧ ∃ c ∈ twoPairHand, c.rank ≠ Rank.king ∧ c.rank ≠ Rank.eight :=
  ⟨(C10_get_trips_or_pairs_no_panic (by decide) (by decide)).1,
   (C10_get_trips_or_pairs_no_panic (by decide) (by decide)).2.1 .king .eight
     (by decide) (by decide) (by decide)⟩

/-! Panic-freedom of the remaining detectors. -/

lemma straightGo_found_length :
    ∀ (cs : List Card) (last : Rank) (streak : List Card) {s : List Card} {l2 : Rank}
      {s2 : List Card}, straightGo cs last streak = (some s, l2, s2) → s.length = 5 := by
  intro cs
  induction cs with
  | nil =>
    intro last streak s l2 s2 h
    simp [straightGo] at h
  | cons c cs ih =>
    intro last streak s l2 s2 h
    unfold straightGo at h
    by_cases hcl : c.rank = last
    · rw [if_pos hcl] at h
      exact ih _ _ h
    · rw [if_neg hcl] at h
      by_cases hlen : (nextStreak c last streak).length = 5
      · rw [if_pos hlen] at h
        simp only [Prod.mk.injEq] at h
        obtain ⟨hs, -, -⟩ := h
        injection hs with hs
        rw [← hs]
        exact hlen
      · rw [if_neg hlen] at h
        exact ih _ _ h

lemma get_straight_ne_none (cards : List Card) : get_straight cards ≠ none := by
  unfold get_straight
  split
  case isTrue h5 =>
    rcases hgo : straightGo cards .two [] with ⟨found, last, streak⟩
    rcases found with _ | s
    · dsimp only
      split
      case isTrue hw =>
        rcases hh : cards.head? with _ | c0
        · rw [List.head?_eq_none_iff] at hh
          rw [hh] at h5
          simp at h5
        · simp only [hh]
          split
          case isTrue hace =>
            have hlen : (streak ++ [c0]).length = 5 := by
              rw [List.length_append, hw.2]
              rfl
            rw [card_vec_to_card_array, if_pos (by omega)]
            simp
          case isFalse => simp
      case isFalse => simp
    · have hlen := straightGo_found_length _ _ _ hgo
      dsimp only
      rw [card_vec_to_card_array, if_pos (by omega)]
      simp
  case isFalse => simp

lemma sfGo_ne_none (cards : List Card) : ∀ ss, sfGo cards ss ≠ none := by
  intro ss
  induction ss with
  | nil => simp [sfGo]
  | cons s rest ih =>
    unfold sfGo
    rcases hgs : get_straight (group_by_suit cards s) with _ | x
    · exact absurd hgs (get_straight_ne_none _)
    · rcases x with _ | t
      · simpa using ih
      · cases t <;> simp <;> exact ih

lemma get_straight_flush_ne_none (cards : List Card) : get_straight_flush cards ≠ none :=
  sfGo_ne_none cards all_suits

lemma get_flush_ne_none (cards : List Card) : get_flush cards ≠ none := by
  simp [get_flush]

lemma list_len_four {α : Type} {l : List α} (h : l.length = 4) : ∃ a b c d, l = [a, b, c, d] := by
  match l, h with
  | [a, b, c, d], _ => exact ⟨a, b, c, d, rfl⟩

lemma get_quads_ne_none {cards : List Card} (hnd : cards.Nodup) :
    get_quads cards ≠ none := by
  have hB := gbrf_of_nodup hnd
  unfold get_quads
  rw [hB]
  simp only [Option.some_bind]
  set B := ((List.range 5).map fun k =>
      (descRanks.filter fun r => (grouped_by_rank cards r).length = k).map
        (grouped_by_rank cards)) with hBdef
  rcases h4 : (B.getD 4 []).head? with _ | g
  · simp
  · have hgmem : g ∈ B.getD 4 [] := List.mem_of_mem_head? (Option.mem_def.mpr h4)
    obtain ⟨r, hrlt, hlen, heq⟩ := (mem_bucket hB (by omega)).mp hgmem
    obtain ⟨a, b, c, d, hge⟩ := @list_len_four _ g (by rw [heq]; exact hlen)
    simp only [hge]
    intro hcon
    split at hcon <;> simp at hcon

lemma get_full_house_ne_none {cards : List Card} (hnd : cards.Nodup) :
    get_full_house cards ≠ none := by
  have hB := gbrf_of_nodup hnd
  unfold get_full_house
  rw [hB]
  simp only [Option.some_bind]
  set B := ((List.range 5).map fun k =>
      (descRanks.filter fun r => (grouped_by_rank cards r).length = k).map
        (grouped_by_rank cards)) with hBdef
  rcases h3 : (B.getD 3 []).head? with _ | g
  · simp
  · have hgmem : g ∈ B.getD 3 [] := List.mem_of_mem_head? (Option.mem_def.mpr h3)
    obtain ⟨r, hrlt, hlen, heq⟩ := (mem_bucket hB (by omega)).mp hgmem
    obtain ⟨t1, t2, t3, hge⟩ := @list_len_three _ g (by rw [heq]; exact hlen)
    simp only [hge]
    rcases h2 : (B.getD 2 []).head? with _ | p
    · rcases hg2 : (B.getD 3 [])[1]? with _ | g2
      · simp
      · have hg2mem : g2 ∈ B.getD 3 [] := by
          obtain ⟨hlt, hg⟩ := List.getElem?_eq_some.mp hg2
          rw [← hg]
          exact List.getElem_mem hlt
        obtain ⟨r2, hr2lt, hlen2, heq2⟩ := (mem_bucket hB (by omega)).mp hg2mem
        obtain ⟨q1, q2, q3, hg2e⟩ := @list_len_three _ g2 (by rw [heq2]; exact hlen2)
        simp [hg2e]
    · have hpmem : p ∈ B.getD 2 [] := List.mem_of_mem_head? (Option.mem_def.mpr h2)
      obtain ⟨rp, hrplt, hlenp, heqp⟩ := (mem_bucket hB (by omega)).mp hpmem
      obtain ⟨p1, p2, hpe⟩ := @list_len_two _ p (by rw [heqp]; exact hlenp)
      simp [hpe]

lemma get_high_card_eq {cards : List Card} (h5 : 5 ≤ cards.length) :
    get_high_card cards = some (some (.HighCard (cards.take 5))) := by
  unfold get_high_card card_vec_to_card_array
  rw [if_pos h5]

/-! The classifier cascade. -/

lemma sortCards_perm (cards : List Card) : (sortCards cards).Perm cards :=
  List.perm_insertionSort _ _

lemma sortCards_length (cards : List Card) : (sortCards cards).length = cards.length :=
  (sortCards_perm cards).length_eq

lemma sortCards_nodup {cards : List Card} (h : cards.Nodup) : (sortCards cards).Nodup :=
  ((sortCards_perm cards).nodup_iff).mpr h

lemma handTypeCascade_eq_firstMatch (cards : List Card) :
    handTypeCascade cards = firstMatch detector_cascade cards := by
  unfold handTypeCascade detector_cascade
  rcases h1 : get_straight_flush cards with _ | (_ | t1)
  · simp [firstMatch, orElseP, h1]
  · rcases h2 : get_quads cards with _ | (_ | t2)
    · simp [firstMatch, orElseP, h1, h2]
    · rcases h3 : get_full_house cards with _ | (_ | t3)
      · simp [firstMatch, orElseP, h1, h2, h3]
      · rcases h4 : get_flush cards with _ | (_ | t4)
        · simp [firstMatch, orElseP, h1, h2, h3, h4]
        · rcases h5 : get_straight cards with _ | (_ | t5)
          · simp [firstMatch, orElseP, h1, h2, h3, h4, h5]
          · rcases h6 : get_trips_or_pairs cards with _ | (_ | t6)
            · simp [firstMatch, orElseP, h1, h2, h3, h4, h5, h6]
            · rcases h7 : get_high_card cards with _ | (_ | t7)
              · simp [firstMatch, orElseP, h1, h2, h3, h4, h5, h6, h7]
              · simp [firstMatch, orElseP, h1, h2, h3, h4, h5, h6, h7]
              · simp [firstMatch, orElseP, h1, h2, h3, h4, h5, h6, h7]
            · simp [firstMatch, orElseP, h1, h2, h3, h4, h5, h6]
          · simp [firstMatch, orElseP, h1, h2, h3, h4, h5]
        · simp [firstMatch, orElseP, h1, h2, h3, h4]
      · simp [firstMatch, orElseP, h1, h2, h3]
    · simp [firstMatch, orElseP, h1, h2]
  · simp [firstMatch, orElseP, h1]

lemma handTypeCascade_isSome {cards : List Card} (h7 : cards.length = 7)
    (hnd : cards.Nodup) : ∃ t, handTypeCascade cards = some t := by
  unfold handTypeCascade
  rcases h1 : get_straight_flush cards with _ | (_ | t1)
  · exact absurd h1 (get_straight_flush_ne_none cards)
  · rcases h2 : get_quads cards with _ | (_ | t2)
    · exact absurd h2 (get_quads_ne_none hnd)
    · rcases h3 : get_full_house cards with _ | (_ | t3)
      · exact absurd h3 (get_full_house_ne_none hnd)
      · rcases h4 : get_flush cards with _ | (_ | t4)
        · exact absurd h4 (get_flush_ne_none cards)
        · rcases h5 : get_straight cards with _ | (_ | t5)
          · exact absurd h5 (get_straight_ne_none cards)
          · rcases h6 : get_trips_or_pairs cards with _ | (_ | t6)
            · exact absurd h6 (get_trips_or_pairs_isSome h7 hnd)
            · refine ⟨.HighCard (cards.take 5), ?_⟩
              rw [get_high_card_eq (by omega)] at *
              simp [orElseP, h1, h2, h3, h4, h5, h6, get_high_card_eq (show 5 ≤ cards.length by omega)]
            · exact ⟨t6, by simp [orElseP, h1, h2, h3, h4, h5, h6]⟩
          · exact ⟨t5, by simp [orElseP, h1, h2, h3, h4, h5]⟩
        · exact ⟨t4, by simp [orElseP, h1, h2, h3, h4]⟩
      · exact ⟨t3, by simp [orElseP, h1, h2, h3]⟩
    · exact ⟨t2, by simp [orElseP, h1, h2]⟩
  · exact ⟨t1, by simp [orElseP, h1]⟩

/-- C1: for every well-formed 7-card input (2 distinct hole cards plus 5
distinct board cards, all distinct), hand_type returns exactly one HandType
value, namely the result of the first detector that matches in the fixed order
StraightFlush, Quads, FullHouse, Flush, Straight, Trips/TwoPair/Pair,
HighCard; classification never fails because HighCard (the 5 highest-ranked of
the 7 sorted cards) always matches. -/
theorem C1_hand_type_total (hand board : List Card) (hh : hand.length = 2)
    (hb : board.length = 5) (hnd : (hand ++ board).Nodup) :
    (∃ t, hand_type hand board = some t)
    ∧ hand_type hand board = firstMatch detector_cascade (sortCards (hand ++ board))
    ∧ get_high_card (sortCards (hand ++ board)) =
        some (some (.HighCard ((sortCards (hand ++ board)).take 5))) := by
  have hlen7 : (sortCards (hand ++ board)).length = 7 := by
    rw [sortCards_length, List.length_append, hh, hb]
  have hnd2 : (sortCards (hand ++ board)).Nodup := sortCards_nodup hnd
  exact ⟨handTypeCascade_isSome hlen7 hnd2,
    handTypeCascade_eq_firstMatch _,
    get_high_card_eq (by omega)⟩

/-- Witness for C1 at a concrete hand (the trips doctest of `hand_type`). -/
theorem C1_hand_type_total_witness :
    (∃ t, hand_type [⟨.ace, .Spades⟩, ⟨.ace, .Clubs⟩]
      [⟨.ace, .Diamonds⟩, ⟨.nine, .Hearts⟩, ⟨.eight, .Clubs⟩, ⟨.five, .Clubs⟩,
       ⟨.four, .Clubs⟩] = some t)
    ∧ hand_type [⟨.ace, .Spades⟩, ⟨.ace, .Clubs⟩]
        [⟨.ace, .Diamonds⟩, ⟨.nine, .Hearts⟩, ⟨.eight, .Clubs⟩, ⟨.five, .Clubs⟩,
         ⟨.four, .Clubs⟩] =
        firstMatch detector_cascade (sortCards
          ([⟨.ace, .Spades⟩, ⟨.ace, .Clubs⟩] ++
           [⟨.ace, .Diamonds⟩, ⟨.nine, .Hearts⟩, ⟨.eight, .Clubs⟩, ⟨.five, .Clubs⟩,
            ⟨.four, .Clubs⟩])) :=
  ⟨(C1_hand_type_total _ _ (by decide) (by decide) (by decide)).1,
   (C1_hand_type_total _ _ (by decide) (by decide) (by decide)).2.1⟩

/-! The HandType order as a category-then-rank lexicographic order. -/

lemma ordering_then_eq (o : Ordering) : o.then .eq = o := by cases o <;> rfl

lemma listCardCmp_eq_lexNat : ∀ l1 l2 : List Card,
    listCardCmp l1 l2 =
      lexNat (l1.map fun c => c.rank.toNat) (l2.map fun c => c.rank.toNat)
  | [], [] => rfl
  | [], _ :: _ => rfl
  | _ :: _, [] => rfl
  | a :: as, b :: bs => by
    simp only [listCardCmp, List.map_cons, lexNat, cardCmp, rankCmp]
    rcases h : compare a.rank.toNat b.rank.toNat with _ | _ | _ <;>
      simp [Ordering.then, listCardCmp_eq_lexNat as bs]

lemma lexNat_append : ∀ {xs xs' : List Nat} (ys ys' : List Nat),
    xs.length = xs'.length →
    lexNat (xs ++ ys) (xs' ++ ys') = (lexNat xs xs').then (lexNat ys ys')
  | [], [], ys, ys', _ => by simp [lexNat, Ordering.then]
  | [], _ :: _, _, _, h => by simp at h
  | _ :: _, [], _, _, h => by simp at h
  | x :: xs, x' :: xs', ys, ys', h => by
    simp only [List.cons_append, lexNat, List.append_eq]
    rw [lexNat_append ys ys' (by simpa using h)]
    rcases compare x x' with _ | _ | _ <;> simp [Ordering.then]

lemma lexNat_singleton (x y : Nat) : lexNat [x] [y] = compare x y := by
  simp [lexNat, ordering_then_eq]

lemma lexNat_eq_iff : ∀ {l1 l2 : List Nat}, lexNat l1 l2 = .eq ↔ l1 = l2
  | [], [] => by simp [lexNat]
  | [], _ :: _ => by simp [lexNat]
  | _ :: _, [] => by simp [lexNat]
  | a :: as, b :: bs => by
    simp only [lexNat]
    rcases h : compare a b with _ | _ | _
    · simp only [Ordering.then, List.cons_eq_cons]
      constructor
      · intro hc
        cases hc
      · rintro ⟨hab, -⟩
        rw [hab] at h
        have hbb : compare b b = Ordering.eq := Nat.compare_eq_eq.mpr rfl
        rw [hbb] at h
        cases h
    · have hab : a = b := Nat.compare_eq_eq.mp h
      simp [Ordering.then, hab, lexNat_eq_iff]
    · simp only [Ordering.then, List.cons_eq_cons]
      constructor
      · intro hc
        cases hc
      · rintro ⟨hab, -⟩
        rw [hab] at h
        have hbb : compare b b = Ordering.eq := Nat.compare_eq_eq.mpr rfl
        rw [hbb] at h
        cases h

lemma handCmp_eq_then (t1 t2 : HandType)
    (w1 : wellFormedPayload t1 = true) (w2 : wellFormedPayload t2 = true) :
    handCmp t1 t2 =
      (compare t1.ctorIdx t2.ctorIdx).then
        (lexNat (payloadRanks t1) (payloadRanks t2)) := by
  cases t1 <;> cases t2 <;>
    simp only [wellFormedPayload, Bool.and_eq_true, beq_iff_eq] at w1 w2 <;> try rfl
  · -- HighCard
    simp only [handCmp, payloadRanks, listCardCmp_eq_lexNat]
    rfl
  · -- Pair
    next a1 a2 b1 b2 =>
    simp only [handCmp, payloadRanks, listCardCmp_eq_lexNat, List.map_append]
    rw [lexNat_append (a2.map fun c => c.rank.toNat) (b2.map fun c => c.rank.toNat)
      (by simp [w1.1, w2.1])]
    rfl
  · -- TwoPair
    next a1 a2 a3 b1 b2 b3 =>
    simp only [handCmp, payloadRanks, listCardCmp_eq_lexNat, List.map_append]
    rw [lexNat_append ([a3].map fun c => c.rank.toNat) ([b3].map fun c => c.rank.toNat)
      (by simp [w1.1, w1.2, w2.1, w2.2]),
      lexNat_append (a2.map fun c => c.rank.toNat) (b2.map fun c => c.rank.toNat)
      (by simp [w1.1, w2.1])]
    simp only [List.map_cons, List.map_nil, lexNat_singleton]
    rfl
  · -- Trips
    next a1 a2 b1 b2 =>
    simp only [handCmp, payloadRanks, listCardCmp_eq_lexNat, List.map_append]
    rw [lexNat_append (a2.map fun c => c.rank.toNat) (b2.map fun c => c.rank.toNat)
      (by simp [w1.1, w2.1])]
    rfl
  · -- Straight
    simp only [handCmp, payloadRanks, listCardCmp_eq_lexNat]
    rfl
  · -- Flush
    simp only [handCmp, payloadRanks, listCardCmp_eq_lexNat]
    rfl
  · -- FullHouse
    next a1 a2 b1 b2 =>
    simp only [handCmp, payloadRanks, listCardCmp_eq_lexNat, List.map_append]
    rw [lexNat_append (a2.map fun c => c.rank.toNat) (b2.map fun c => c.rank.toNat)
      (by simp [w1.1, w2.1])]
    rfl
  · -- Quads
    next a1 a2 b1 b2 =>
    simp only [handCmp, payloadRanks, listCardCmp_eq_lexNat, List.map_append]
    rw [lexNat_append ([a2].map fun c => c.rank.toNat) ([b2].map fun c => c.rank.toNat)
      (by simp [w1, w2])]
    simp only [List.map_cons, List.map_nil, lexNat_singleton]
    rfl
  · -- StraightFlush
    simp only [handCmp, payloadRanks, listCardCmp_eq_lexNat]
    rfl

/-- C5: the derived HandType order is total and ranks categories
StraightFlush (discriminant 8) above Quads (7) above FullHouse (6) above
Flush (5) above Straight (4) above Trips (3) above TwoPair (2) above Pair (1)
above HighCard (0): values of different categories compare by category
discriminant in that direction, values of the same category compare
lexicographically by the rank values of their payload cards in the declared
payload order, and suit never influences the comparison (the right-hand side
of the first equation depends only on discriminants and payload rank
values). -/
theorem C5_handtype_order (t1 t2 : HandType)
    (w1 : wellFormedPayload t1 = true) (w2 : wellFormedPayload t2 = true) :
    handCmp t1 t2 =
      (compare t1.ctorIdx t2.ctorIdx).then (lexNat (payloadRanks t1) (payloadRanks t2))
    ∧ (t1.ctorIdx < t2.ctorIdx → handCmp t1 t2 = .lt)
    ∧ (t2.ctorIdx < t1.ctorIdx → handCmp t1 t2 = .gt)
    ∧ (handCmp t1 t2 = .eq ↔
        t1.ctorIdx = t2.ctorIdx ∧ payloadRanks t1 = payloadRanks t2) := by
  have hA := handCmp_eq_then t1 t2 w1 w2
  refine ⟨hA, ?_, ?_, ?_⟩
  · intro h
    rw [hA, Nat.compare_eq_lt.mpr h]
    rfl
  · intro h
    rw [hA, Nat.compare_eq_gt.mpr h]
    rfl
  · rw [hA]
    constructor
    · intro he
      rcases hc : compare t1.ctorIdx t2.ctorIdx with _ | _ | _ <;> rw [hc] at he
      · simp [Ordering.then] at he
      · simp only [Ordering.then] at he
        exact ⟨Nat.compare_eq_eq.mp hc, lexNat_eq_iff.mp he⟩
      · simp [Ordering.then] at he
    · rintro ⟨hi, hp⟩
      rw [hi, hp, Nat.compare_eq_eq.mpr rfl]
      simp [Ordering.then, lexNat_eq_iff]

/-- Witness for C5: a Straight compares below a Flush. -/
theorem C5_handtype_order_witness : handCmp straightEx flushEx = .lt :=
  (C5_handtype_order straightEx flushEx (by decide) (by decide)).2.1 (by decide)

/-! Characterization of get_full_house. -/

lemma length_filter_mono {cards : List Card} {p q : Card → Bool}
    (h : ∀ c ∈ cards, q c = true → p c = true) :
    (cards.filter q).length ≤ (cards.filter p).length := by
  induction cards with
  | nil => simp
  | cons a l ih =>
    have ih2 := ih fun c hc => h c (List.mem_cons_of_mem _ hc)
    by_cases hq : q a = true
    · rw [List.filter_cons_of_pos hq, List.filter_cons_of_pos (h a (List.mem_cons_self _ _) hq)]
      simpa using ih2
    · rw [List.filter_cons_of_neg hq]
      by_cases hp : p a = true
      · rw [List.filter_cons_of_pos hp]
        simp only [List.length_cons]
        omega
      · rw [List.filter_cons_of_neg hp]
        exact ih2

lemma rank_of_cnt_pos {cards : List Card} {r : Nat}
    (h : grouped_by_rank cards r ≠ []) : ∃ rk : Rank, rk.toNat = r := by
  rcases hg : grouped_by_rank cards r with _ | ⟨c, cs⟩
  · exact absurd hg h
  · have hc : c ∈ grouped_by_rank cards r := by rw [hg]; exact List.mem_cons_self _ _
    exact ⟨c.rank, grouped_by_rank_rank hc⟩

/-- The first bucket-`k` group is the rank group of the highest rank whose
count is `k`. -/
lemma bucket_head {cards : List Card} {B : List (List (List Card))} {k : Nat}
    (hB : group_by_rank_freq cards = some B) (hk : k < 5) {rt : Nat} (hrt : rt < 15)
    (hcnt : (grouped_by_rank cards rt).length = k)
    (hmax : ∀ y < 15, (grouped_by_rank cards y).length = k → y ≤ rt) :
    (B.getD k []).head? = some (grouped_by_rank cards rt) := by
  rw [gbrf_getD hB hk, List.head?_map,
    head_filter_of_desc descRanks_pairwise (mem_descRanks.mpr hrt)
      (by simpa using hcnt)
      (fun y hy hpy => hmax y (mem_descRanks.mp hy) (by simpa using hpy))]
  rfl

/-- When no rank has count `k`, bucket `k` is empty. -/
lemma bucket_empty {cards : List Card} {B : List (List (List Card))} {k : Nat}
    (hB : group_by_rank_freq cards = some B) (hk : k < 5) (hk0 : k ≠ 0)
    (hnone : ∀ r : Rank, (grouped_by_rank cards r.toNat).length ≠ k) :
    B.getD k [] = [] := by
  rw [gbrf_getD hB hk]
  have : (descRanks.filter fun r => (grouped_by_rank cards r).length = k) = [] := by
    refine List.filter_eq_nil_iff.mpr fun r _ hp => ?_
    have hlen : (grouped_by_rank cards r).length = k := by simpa using hp
    have hne : grouped_by_rank cards r ≠ [] := by
      intro hc
      rw [hc] at hlen
      exact hk0 hlen.symm
    obtain ⟨rk, rfl⟩ := rank_of_cnt_pos hne
    exact hnone rk hlen
  rw [this]
  rfl

/-- C6: on a 7-card input of distinct cards get_full_house returns Some
exactly when an occurrence-3 group exists and either an occurrence-2 group
exists (the pair comes from the highest-ranked such group) or a second
occurrence-3 group exists (the pair is the first 2 of its 3 cards); when two
trips-eligible ranks exist the higher rank fills the trips slot; otherwise it
returns None. -/
theorem C6_get_full_house (cards : List Card) (h7 : cards.length = 7)
    (hnd : cards.Nodup) :
    ((∀ r : Rank, (grouped_by_rank cards r.toNat).length ≠ 3) →
        get_full_house cards = some none)
    ∧ ∀ rt : Rank, (grouped_by_rank cards rt.toNat).length = 3 →
        (∀ r : Rank, (grouped_by_rank cards r.toNat).length = 3 → r.toNat ≤ rt.toNat) →
        ((∀ rp : Rank, (grouped_by_rank cards rp.toNat).length = 2 →
            (∀ r : Rank, (grouped_by_rank cards r.toNat).length = 2 → r.toNat ≤ rp.toNat) →
            get_full_house cards =
              some (some (.FullHouse (grouped_by_rank cards rt.toNat)
                (grouped_by_rank cards rp.toNat))))
        ∧ ((∀ r : Rank, (grouped_by_rank cards r.toNat).length ≠ 2) →
            ∀ rp : Rank, (grouped_by_rank cards rp.toNat).length = 3 → rp ≠ rt →
              get_full_house cards =
                some (some (.FullHouse (grouped_by_rank cards rt.toNat)
                  ((grouped_by_rank cards rp.toNat).take 2))))
        ∧ ((∀ r : Rank, (grouped_by_rank cards r.toNat).length ≠ 2) →
            (∀ r : Rank, (grouped_by_rank cards r.toNat).length = 3 → r = rt) →
            get_full_house cards = some none)) := by
  have hB := gbrf_of_nodup hnd
  set B := ((List.range 5).map fun k =>
      (descRanks.filter fun r => (grouped_by_rank cards r).length = k).map
        (grouped_by_rank cards)) with hBdef
  constructor
  · intro hno3
    unfold get_full_house
    rw [hB, Option.some_bind, bucket_empty hB (by omega) (by omega) hno3]
    rfl
  · intro rt hrt3 hrtmax
    have hrtlt : rt.toNat < 15 := by have := Rank.toNat_le_14 rt; omega
    have hmax3 : ∀ y < 15, (grouped_by_rank cards y).length = 3 → y ≤ rt.toNat := by
      intro y hy hcy
      have hne : grouped_by_rank cards y ≠ [] := by
        intro hc
        rw [hc] at hcy
        cases hcy
      obtain ⟨rk, rfl⟩ := rank_of_cnt_pos hne
      exact hrtmax rk hcy
    have hhead3 := bucket_head hB (show (3 : Nat) < 5 by omega) hrtlt hrt3 hmax3
    obtain ⟨t1, t2, t3, heq⟩ := @list_len_three _ (grouped_by_rank cards rt.toNat) hrt3
    refine ⟨?_, ?_, ?_⟩
    · intro rp hrp2 hrpmax
      have hrplt : rp.toNat < 15 := by have := Rank.toNat_le_14 rp; omega
      have hmax2 : ∀ y < 15, (grouped_by_rank cards y).length = 2 → y ≤ rp.toNat := by
        intro y hy hcy
        have hne : grouped_by_rank cards y ≠ [] := by
          intro hc
          rw [hc] at hcy
          cases hcy
        obtain ⟨rk, rfl⟩ := rank_of_cnt_pos hne
        exact hrpmax rk hcy
      have hhead2 := bucket_head hB (show (2 : Nat) < 5 by omega) hrplt hrp2 hmax2
      obtain ⟨p1, p2, heqp⟩ := @list_len_two _ (grouped_by_rank cards rp.toNat) hrp2
      unfold get_full_house
      rw [hB, Option.some_bind, hhead3, heq, hhead2, heqp]
    · intro hno2 rp hrp3 hrpne
      have hrplt : rp.toNat < 15 := by have := Rank.toNat_le_14 rp; omega
      have hrpltrt : rp.toNat < rt.toNat := by
        have hle := hrtmax rp hrp3
        have hne : rp.toNat ≠ rt.toNat := fun hc => hrpne (Rank.toNat_inj hc)
        omega
      have hpair : (descRanks.filter fun r => (grouped_by_rank cards r).length = 3) =
          [rt.toNat, rp.toNat] := by
        refine filter_of_desc_pair descRanks_pairwise hrpltrt
          (mem_descRanks.mpr hrtlt) (mem_descRanks.mpr hrplt)
          (by simpa using hrt3) (by simpa using hrp3) ?_
        intro z hz hpz
        have hcz : (grouped_by_rank cards z).length = 3 := by simpa using hpz
        by_contra hboth
        push_neg at hboth
        obtain ⟨hz1, hz2⟩ := hboth
        -- a third trips rank would need nine cards
        obtain ⟨rkz, rfl⟩ := rank_of_cnt_pos (by intro hc; rw [hc] at hcz; cases hcz)
        have hnert : rkz ≠ rt := fun hc => hz1 (by rw [hc])
        have hnerp : rkz ≠ rp := fun hc => hz2 (by rw [hc])
        have hsub : (grouped_by_rank cards rkz.toNat).length ≤
            (cards.filter fun c => c.rank ≠ rt ∧ c.rank ≠ rp).length := by
          refine length_filter_mono ?_
          intro c _ hq
          have hcr : c.rank.toNat = rkz.toNat := by simpa using hq
          have hcrk : c.rank = rkz := Rank.toNat_inj hcr
          simp only [decide_eq_true_eq]
          constructor
          · rw [hcrk]
            exact hnert
          · rw [hcrk]
            exact hnerp
        have hflen := length_filter_ne_two_ranks cards (show rt ≠ rp from fun hc => hrpne hc.symm)
        rw [hrt3, hrp3, h7] at hflen
        omega
      have hbucket3 : B.getD 3 [] =
          [grouped_by_rank cards rt.toNat, grouped_by_rank cards rp.toNat] := by
        rw [gbrf_getD hB (by omega), hpair]
        rfl
      obtain ⟨q1, q2, q3, heqq⟩ := @list_len_three _ (grouped_by_rank cards rp.toNat) hrp3
      unfold get_full_house
      rw [hB, Option.some_bind, bucket_empty hB (by omega) (by omega) hno2]
      rw [show (B.getD 3 []).head? = some (grouped_by_rank cards rt.toNat) from hhead3]
      rw [heq]
      rw [show (B.getD 3 [])[1]? = some (grouped_by_rank cards rp.toNat) by
        rw [hbucket3]; rfl]
      rw [heqq]
      rfl
    · intro hno2 honly3
      have hsingle : (descRanks.filter fun r => (grouped_by_rank cards r).length = 3) =
          [rt.toNat] := by
        refine filter_of_desc_single descRanks_pairwise (mem_descRanks.mpr hrtlt)
          (by simpa using hrt3) ?_
        intro z hz hpz
        have hcz : (grouped_by_rank cards z).length = 3 := by simpa using hpz
        obtain ⟨rkz, rfl⟩ := rank_of_cnt_pos (by intro hc; rw [hc] at hcz; cases hcz)
        rw [honly3 rkz hcz]
      have hbucket3 : B.getD 3 [] = [grouped_by_rank cards rt.toNat] := by
        rw [gbrf_getD hB (by omega), hsingle]
        rfl
      unfold get_full_house
      rw [hB, Option.some_bind, bucket_empty hB (by omega) (by omega) hno2]
      rw [show (B.getD 3 []).head? = some (grouped_by_rank cards rt.toNat) from hhead3]
      rw [heq]
      rw [show (B.getD 3 [])[1]? = (none : Option (List Card)) by rw [hbucket3]; rfl]
      rfl

/-- Witness for C6: with three tens and three eights the tens fill the trips
slot and the pair is two of the eights. -/
theorem C6_get_full_house_witness :
    get_full_house boatHand =
      some (some (.FullHouse (grouped_by_rank boatHand Rank.ten.toNat)
        ((grouped_by_rank boatHand Rank.eight.toNat).take 2))) :=
  ((C6_get_full_house boatHand (by decide) (by decide)).2 .ten (by decide)
    (by decide)).2.1 (by decide) .eight (by decide) (by decide)

/-! The wheel: behaviour of the straight scan on ace-plus-low-cards inputs. -/

lemma preceeds_iff {a b : Rank} : a.preceeds b = true ↔ a.toNat + 1 = b.toNat := by
  simp [Rank.preceeds]

lemma nextStreak_length (c : Card) (last : Rank) (s : List Card) :
    (nextStreak c last s).length = 1 ∨ (nextStreak c last s).length = s.length + 1 := by
  unfold nextStreak
  split
  · left
    rfl
  · right
    simp

lemma straightGo_cons (c : Card) (cs : List Card) (last : Rank) (streak : List Card) :
    straightGo (c :: cs) last streak =
      if c.rank = last then straightGo cs last streak
      else if (nextStreak c last streak).length = 5 then
        (some (nextStreak c last streak), c.rank, nextStreak c last streak)
      else straightGo cs c.rank (nextStreak c last streak) := by
  rfl

/-- Scanning a block of cards of rank at least seven neither returns early nor
lets the streak grow past the block, and leaves a last rank at least seven. -/
lemma straightGo_high : ∀ (hs ls : List Card) (last : Rank) (s : List Card),
    (∀ c ∈ hs, 7 ≤ c.rank.toNat) → 7 ≤ last.toNat → s.length + hs.length ≤ 4 →
    ∃ last' s', straightGo (hs ++ ls) last s = straightGo ls last' s' ∧
      7 ≤ last'.toNat ∧ s'.length + 0 ≤ s.length + hs.length
  | [], ls, last, s, _, hlast, hb => ⟨last, s, rfl, hlast, by omega⟩
  | c :: hs, ls, last, s, hhigh, hlast, hb => by
    have hc7 : 7 ≤ c.rank.toNat := hhigh c (List.mem_cons_self _ _)
    rw [List.cons_append]
    by_cases hcl : c.rank = last
    · have := straightGo_high hs ls last s
        (fun d hd => hhigh d (List.mem_cons_of_mem _ hd)) hlast (by simp at hb ⊢; omega)
      obtain ⟨last', s', heq, h7, hlen⟩ := this
      refine ⟨last', s', ?_, h7, by simp at hb ⊢; omega⟩
      rw [straightGo_cons, if_pos hcl]
      exact heq
    · have hns := nextStreak_length c last s
      have hnot5 : ¬ (nextStreak c last s).length = 5 := by
        simp only [List.length_cons] at hb
        omega
      have := straightGo_high hs ls c.rank (nextStreak c last s)
        (fun d hd => hhigh d (List.mem_cons_of_mem _ hd)) hc7
        (by simp only [List.length_cons] at hb; omega)
      obtain ⟨last', s', heq, h7, hlen⟩ := this
      refine ⟨last', s', ?_, h7, by simp only [List.length_cons] at hb ⊢; omega⟩
      rw [straightGo_cons, if_neg hcl, if_neg hnot5]
      exact heq

lemma sorted_head_ge {c : Card} {cs : List Card} (h : List.Sorted cardGe (c :: cs)) :
    ∀ d ∈ cs, d.rank.toNat ≤ c.rank.toNat :=
  fun d hd => (List.sorted_cons.mp h).1 d hd

/-- Scanning the low block: ranks at most `k`, each of `k-1 .. 2` present,
sorted descending.  The scan finishes with last rank Two and appends one card
of each rank `k-1, k-2, ..., 2` to the streak. -/
lemma straightGo_low : ∀ (ls : List Card) (k : Nat) (last : Rank) (s : List Card),
    2 ≤ k → k ≤ 5 → last.toNat = k →
    List.Sorted cardGe ls →
    (∀ c ∈ ls, c.rank.toNat ≤ k) →
    (∀ j, 2 ≤ j → j < k → ∃ c ∈ ls, c.rank.toNat = j) →
    s.length + (k - 2) ≤ 4 →
    ∃ tail, straightGo ls last s = (none, .two, s ++ tail) ∧
      (tail.map fun c => c.rank.toNat) = (List.range' 2 (k - 2)).reverse ∧
      ∀ c ∈ tail, c ∈ ls
  | [], k, last, s, hk2, _, hlast, _, _, hp, _ => by
    have hk : k = 2 := by
      by_contra hne
      obtain ⟨c, hc, -⟩ := hp 2 (by omega) (by omega)
      cases hc
    subst hk
    have hl2 : last = .two := Rank.toNat_inj (r := last) (s := .two) (by rw [hlast]; rfl)
    exact ⟨[], by rw [hl2]; simp [straightGo], by simp, by simp⟩
  | c :: ls, k, last, s, hk2, hk5, hlast, hsort, hle, hp, hb => by
    by_cases hcl : c.rank = last
    · -- duplicate of the current rank: skipped
      have := straightGo_low ls k last s hk2 hk5 hlast (List.sorted_cons.mp hsort).2
        (fun d hd => hle d (List.mem_cons_of_mem _ hd))
        (fun j hj2 hjk => by
          obtain ⟨d, hd, hdr⟩ := hp j hj2 hjk
          rcases List.mem_cons.mp hd with rfl | hd2
          · rw [hcl, hlast] at hdr
            omega
          · exact ⟨d, hd2, hdr⟩) hb
      obtain ⟨tail, heq, hmap, hmem⟩ := this
      refine ⟨tail, ?_, hmap, fun d hd => List.mem_cons_of_mem _ (hmem d hd)⟩
      rw [straightGo_cons, if_pos hcl]
      exact heq
    · -- the head must be the next expected rank k-1
      have hk3 : 3 ≤ k := by
        rcases Nat.lt_or_ge k 3 with h | h
        · exfalso
          have hck : c.rank.toNat ≤ k := hle c (List.mem_cons_self _ _)
          have h2c := Rank.two_le_toNat c.rank
          have hck2 : c.rank.toNat = 2 := by omega
          have hl2 : c.rank = last := by
            refine Rank.toNat_inj ?_
            rw [hck2, hlast]
            omega
          exact hcl hl2
        · exact h
      obtain ⟨d, hd, hdr⟩ := hp (k - 1) (by omega) (by omega)
      have hcge : d.rank.toNat ≤ c.rank.toNat := by
        rcases List.mem_cons.mp hd with rfl | hd2
        · omega
        · exact sorted_head_ge hsort d hd2
      have hck : c.rank.toNat ≤ k := hle c (List.mem_cons_self _ _)
      have hcne : c.rank.toNat ≠ k := fun hc =>
        hcl (Rank.toNat_inj (by rw [hc, hlast]))
      have hck1 : c.rank.toNat = k - 1 := by omega
      have hprec : c.rank.preceeds last = true := preceeds_iff.mpr (by omega)
      have hns : nextStreak c last s = s ++ [c] := by
        unfold nextStreak
        rw [if_neg (not_not_intro hprec)]
      have hnot5 : ¬ (nextStreak c last s).length = 5 := by
        rw [hns]
        simp only [List.length_append, List.length_cons, List.length_nil]
        omega
      have := straightGo_low ls (k - 1) c.rank (s ++ [c]) (by omega) (by omega)
        (by omega) (List.sorted_cons.mp hsort).2
        (fun e he => by
          have := sorted_head_ge hsort e he
          omega)
        (fun j hj2 hjk => by
          obtain ⟨e, he, her⟩ := hp j hj2 (by omega)
          rcases List.mem_cons.mp he with rfl | he2
          · omega
          · exact ⟨e, he2, her⟩)
        (by simp only [List.length_append, List.length_cons, List.length_nil]; omega)
      obtain ⟨tail, heq, hmap, hmem⟩ := this
      refine ⟨c :: tail, ?_, ?_, ?_⟩
      · rw [straightGo_cons, if_neg hcl, if_neg hnot5, hns, heq, List.append_assoc]
        simp
      · simp only [List.map_cons, hmap, hck1]
        have hstep : List.range' 2 (k - 2) = List.range' 2 (k - 1 - 2) ++ [k - 1] := by
          have hlen : k - 2 = (k - 1 - 2) + 1 := by omega
          rw [hlen, List.range'_concat]
          congr 1
          have : 2 + 1 * (k - 1 - 2) = k - 1 := by omega
          rw [this]
        rw [hstep, List.reverse_append]
        simp
      · intro e he
        rcases List.mem_cons.mp he with rfl | he2
        · exact List.mem_cons_self _ _
        · exact List.mem_cons_of_mem _ (hmem e he2)

lemma dropWhile_cons_not {p : Card → Bool} :
    ∀ {l : List Card} {c : Card} {cs : List Card}, l.dropWhile p = c :: cs → p c = false := by
  intro l
  induction l with
  | nil => intro c cs h; cases h
  | cons a t ih =>
    intro c cs h
    rw [List.dropWhile_cons] at h
    split at h
    · exact ih h
    · rename_i hpa
      injection h with h1 h2
      rw [← h1]
      cases hpb : p a
      · rfl
      · exact absurd hpb hpa

/-- C4: on a rank-descending 7-card input whose highest card is an Ace, with
each of ranks Five, Four, Three and Two present and rank Six absent (so no
straight is found before the scan ends), get_straight returns the wheel: a
Straight whose cards carry rank values [5, 4, 3, 2, 14] (Five, Four, Three,
Two, Ace), and that value compares below every Six-high or higher straight
under the HandType order; in particular the hole {A club, 2 diamond} with
board {3 spade, 4 heart, 5 club, 9 diamond, K spade} classifies as that
Five-high straight. -/
theorem C4_get_straight_wheel (cards : List Card)
    (hsort : List.Sorted cardGe cards) (h7 : cards.length = 7)
    (hhead : ∃ c0, cards.head? = some c0 ∧ c0.rank = Rank.ace)
    (hp5 : ∃ c ∈ cards, c.rank = Rank.five) (hp4 : ∃ c ∈ cards, c.rank = Rank.four)
    (hp3 : ∃ c ∈ cards, c.rank = Rank.three) (hp2 : ∃ c ∈ cards, c.rank = Rank.two)
    (hno6 : ∀ c ∈ cards, c.rank ≠ Rank.six) :
    (∃ s, get_straight cards = some (some (.Straight s)) ∧
      (s.map fun c => c.rank.toNat) = [5, 4, 3, 2, 14] ∧
      ∀ l : List Card, (∃ e, l.head? = some e ∧ 6 ≤ e.rank.toNat) →
        handCmp (.Straight s) (.Straight l) = .lt)
    ∧ hand_type [⟨.ace, .Clubs⟩, ⟨.two, .Diamonds⟩]
        [⟨.three, .Spades⟩, ⟨.four, .Hearts⟩, ⟨.five, .Clubs⟩, ⟨.nine, .Diamonds⟩,
         ⟨.king, .Spades⟩] =
        some (.Straight [⟨.five, .Clubs⟩, ⟨.four, .Hearts⟩, ⟨.three, .Spades⟩,
          ⟨.two, .Diamonds⟩, ⟨.ace, .Clubs⟩]) := by
  refine ⟨?_, by decide⟩
  rcases cards with _ | ⟨c0, rest⟩
  · obtain ⟨e, he, -⟩ := hhead
    cases he
  obtain ⟨e, he, hc0⟩ := hhead
  injection he with he
  subst he
  -- names for the two phases
  have hrest_sorted : List.Sorted cardGe rest := (List.sorted_cons.mp hsort).2
  have hsplit : rest.takeWhile (fun c => decide (7 ≤ c.rank.toNat)) ++
      rest.dropWhile (fun c => decide (7 ≤ c.rank.toNat)) = rest :=
    List.takeWhile_append_dropWhile ..
  set hs := rest.takeWhile (fun c => decide (7 ≤ c.rank.toNat)) with hhs
  set ls := rest.dropWhile (fun c => decide (7 ≤ c.rank.toNat)) with hls
  have hhigh : ∀ c ∈ hs, 7 ≤ c.rank.toNat := by
    intro c hc
    have := List.mem_takeWhile_imp hc
    simpa using this
  have hls_sorted : List.Sorted cardGe ls :=
    hrest_sorted.sublist (List.dropWhile_sublist ..)
  have hls_sub_rest : ∀ c ∈ ls, c ∈ rest := fun c hc =>
    (List.dropWhile_sublist ..).subset hc
  have hno6' : ∀ c ∈ rest, c.rank.toNat ≠ 6 := by
    intro c hc hc6
    have : c.rank = Rank.six := Rank.toNat_inj (r := c.rank) (s := .six) hc6
    exact hno6 c (List.mem_cons_of_mem _ hc) this
  have hls_le : ∀ c ∈ ls, c.rank.toNat ≤ 5 := by
    intro c hc
    rcases hlsc : ls with _ | ⟨d, ls'⟩
    · rw [hlsc] at hc
      cases hc
    · have hd : (fun c => decide (7 ≤ c.rank.toNat)) d = false := dropWhile_cons_not hlsc
      have hd7 : ¬ 7 ≤ d.rank.toNat := by simpa using hd
      rw [hlsc] at hc
      have hcd : c.rank.toNat ≤ d.rank.toNat := by
        rcases List.mem_cons.mp hc with rfl | hc2
        · omega
        · exact sorted_head_ge (by rw [hlsc] at hls_sorted; exact hls_sorted) c hc2
      have hc6 : c.rank.toNat ≠ 6 := hno6' c (hls_sub_rest c (by rw [hlsc]; exact hc))
      omega
  -- the four low witnesses are in ls
  have hmem_ls : ∀ c ∈ rest, c.rank.toNat ≤ 5 → c ∈ ls := by
    intro c hc hle
    rcases (List.mem_append.mp (by rw [hsplit]; exact hc : c ∈ hs ++ ls)) with h | h
    · have := hhigh c h
      omega
    · exact h
  have hwit : ∀ rk : Rank, rk.toNat ≤ 5 → (∃ c ∈ c0 :: rest, c.rank = rk) →
      ∃ c ∈ ls, c.rank.toNat = rk.toNat := by
    intro rk hrk ⟨c, hc, hcr⟩
    rcases List.mem_cons.mp hc with rfl | hc2
    · rw [hc0] at hcr
      rw [← hcr] at hrk
      simp [Rank.toNat] at hrk
    · exact ⟨c, hmem_ls c hc2 (by rw [hcr]; exact hrk), by rw [hcr]⟩
  obtain ⟨c5, hc5ls, hc5r⟩ := hwit .five (by decide) hp5
  obtain ⟨c4, hc4ls, hc4r⟩ := hwit .four (by decide) hp4
  obtain ⟨c3, hc3ls, hc3r⟩ := hwit .three (by decide) hp3
  obtain ⟨c2, hc2ls, hc2r⟩ := hwit .two (by decide) hp2
  -- ls has at least four cards, so hs has at most two
  have hls4 : 4 ≤ ls.length := by
    have hnd : [c5, c4, c3, c2].Nodup := by
      have h54 : c5 ≠ c4 := fun h => by rw [h, hc4r] at hc5r; cases hc5r
      have h53 : c5 ≠ c3 := fun h => by rw [h, hc3r] at hc5r; cases hc5r
      have h52 : c5 ≠ c2 := fun h => by rw [h, hc2r] at hc5r; cases hc5r
      have h43 : c4 ≠ c3 := fun h => by rw [h, hc3r] at hc4r; cases hc4r
      have h42 : c4 ≠ c2 := fun h => by rw [h, hc2r] at hc4r; cases hc4r
      have h32 : c3 ≠ c2 := fun h => by rw [h, hc2r] at hc3r; cases hc3r
      simp [h54, h53, h52, h43, h42, h32]
    have hsub : [c5, c4, c3, c2] ⊆ ls := by
      intro x hx
      rcases List.mem_cons.mp hx with rfl | hx
      · exact hc5ls
      rcases List.mem_cons.mp hx with rfl | hx
      · exact hc4ls
      rcases List.mem_cons.mp hx with rfl | hx
      · exact hc3ls
      rcases List.mem_cons.mp hx with rfl | hx
      · exact hc2ls
      cases hx
    exact (List.subperm_of_subset hnd hsub).length_le
  have hlen_rest : rest.length = 6 := by
    rw [List.length_cons] at h7
    omega
  have hhs_len : hs.length ≤ 2 := by
    have := congrArg List.length hsplit
    simp only [List.length_append] at this
    omega
  -- step 1: the ace is pushed onto a fresh streak
  have hace_ne_two : c0.rank ≠ Rank.two := by rw [hc0]; decide
  have hprec0 : c0.rank.preceeds Rank.two = false := by rw [hc0]; decide
  have hns0 : nextStreak c0 Rank.two [] = [c0] := by
    unfold nextStreak
    rw [if_pos (by simp [hprec0])]
  have hstep1 : straightGo (c0 :: rest) Rank.two [] = straightGo rest c0.rank [c0] := by
    rw [straightGo_cons, if_neg hace_ne_two, hns0]
    rw [if_neg (by simp)]
  -- step 2: the high block is scanned without effect on the outcome
  obtain ⟨last', s', hstep2, hlast7, -⟩ :=
    straightGo_high hs ls c0.rank [c0] hhigh (by rw [hc0]; decide)
      (by simp only [List.length_cons, List.length_nil]; omega)
  -- step 3: the first five starts a fresh streak
  rcases hlsc : ls with _ | ⟨d, ls'⟩
  · rw [hlsc] at hc5ls
    cases hc5ls
  have hd5 : d.rank.toNat = 5 := by
    have hdle : d.rank.toNat ≤ 5 := hls_le d (by rw [hlsc]; exact List.mem_cons_self _ _)
    have h5n : Rank.five.toNat = 5 := rfl
    rw [hlsc] at hc5ls
    rcases List.mem_cons.mp hc5ls with rfl | hc2'
    · rw [hc5r, h5n]
    · have hle5 := sorted_head_ge (by rw [hlsc] at hls_sorted; exact hls_sorted) c5 hc2'
      rw [hc5r, h5n] at hle5
      omega
  have hd_ne : d.rank ≠ last' := by
    intro hc
    rw [hc] at hd5
    omega
  have hprecd : d.rank.preceeds last' = false := by
    rcases hpd : d.rank.preceeds last' with _ | _
    · rfl
    · have := preceeds_iff.mp hpd
      omega
  have hnsd : nextStreak d last' s' = [d] := by
    unfold nextStreak
    rw [if_pos (by simp [hprecd])]
  have hstep3 : straightGo (d :: ls') last' s' = straightGo ls' d.rank [d] := by
    rw [straightGo_cons, if_neg hd_ne, hnsd]
    rw [if_neg (by simp)]
  -- step 4: the low block builds the 5-4-3-2 streak
  have hls'_sorted : List.Sorted cardGe ls' := by
    rw [hlsc] at hls_sorted
    exact (List.sorted_cons.mp hls_sorted).2
  obtain ⟨tail, hstep4, hmap, hmemtail⟩ :=
    straightGo_low ls' 5 d.rank [d] (by omega) (by omega) hd5 hls'_sorted
      (fun c hc => hls_le c (by rw [hlsc]; exact List.mem_cons_of_mem _ hc))
      (fun j hj2 hj5 => by
        have hget : ∃ c ∈ ls, c.rank.toNat = j := by
          rcases (show j = 2 ∨ j = 3 ∨ j = 4 by omega) with rfl | rfl | rfl
          · exact ⟨c2, hc2ls, by rw [hc2r]; rfl⟩
          · exact ⟨c3, hc3ls, by rw [hc3r]; rfl⟩
          · exact ⟨c4, hc4ls, by rw [hc4r]; rfl⟩
        obtain ⟨c, hc, hcr⟩ := hget
        rw [hlsc] at hc
        rcases List.mem_cons.mp hc with rfl | hc2'
        · omega
        · exact ⟨c, hc2', hcr⟩)
      (by simp only [List.length_cons, List.length_nil]; omega)
  have htail_len : tail.length = 3 := by
    have := congrArg List.length hmap
    simpa using this
  -- assemble the scan result
  have hscan : straightGo (c0 :: rest) Rank.two [] = (none, Rank.two, [d] ++ tail) := by
    rw [hstep1, ← hsplit, hstep2, hlsc, hstep3, hstep4]
  -- evaluate get_straight
  have hstreak_len : ([d] ++ tail).length = 4 := by
    simp [htail_len]
  have hwheel_len : (([d] ++ tail) ++ [c0]).length = 5 := by
    simp [htail_len]
  refine ⟨([d] ++ tail) ++ [c0], ?_, ?_, ?_⟩
  · unfold get_straight
    rw [if_pos (by rw [h7]; omega), hscan]
    dsimp only
    rw [if_pos ⟨rfl, hstreak_len⟩]
    simp only [List.head?_cons]
    rw [if_pos hc0]
    rw [card_vec_to_card_array, if_pos (by omega)]
    rw [List.take_of_length_le (by omega)]
  · have hmap_tail : tail.map (fun c => c.rank.toNat) = [4, 3, 2] := by
      rw [hmap]
      decide
    have hc0n : c0.rank.toNat = 14 := by rw [hc0]; rfl
    simp [hmap_tail, hd5, hc0n]
  · rintro l ⟨e, hle, he6⟩
    rcases l with _ | ⟨e', l'⟩
    · cases hle
    rw [List.head?_cons] at hle
    injection hle with hle
    show listCardCmp (d :: (tail ++ [c0])) (e' :: l') = .lt
    have hce : cardCmp d e' = .lt := by
      unfold cardCmp rankCmp
      rw [hle]
      exact Nat.compare_eq_lt.mpr (by omega)
    simp only [listCardCmp]
    rw [hce]

/-- Witness for C4 at the concrete wheel hand. -/
theorem C4_get_straight_wheel_witness :
    ∃ s, get_straight wheelSorted = some (some (.Straight s)) ∧
      (s.map fun c => c.rank.toNat) = [5, 4, 3, 2, 14] := by
  obtain ⟨⟨s, h1, h2, -⟩, -⟩ := C4_get_straight_wheel wheelSorted (by decide) (by decide)
    ⟨⟨.ace, .Clubs⟩, rfl, rfl⟩ (by decide) (by decide) (by decide) (by decide) (by decide)
  exact ⟨s, h1, h2⟩

/-! Deck construction: removing cards one by one. -/

lemma removeFirst_of_not_mem : ∀ {l : List Card} {c : Card}, c ∉ l → removeFirst l c = none := by
  intro l
  induction l with
  | nil => intro c _; rfl
  | cons x xs ih =>
    intro c hc
    unfold removeFirst
    rw [if_neg fun h => hc (by rw [← h]; exact List.mem_cons_self x xs)]
    rw [ih fun h => hc (List.mem_cons_of_mem _ h)]
    rfl

lemma removeFirst_of_mem : ∀ {l : List Card} {c : Card}, c ∈ l →
    removeFirst l c = some (l.erase c) := by
  intro l
  induction l with
  | nil => intro c hc; cases hc
  | cons x xs ih =>
    intro c hc
    unfold removeFirst
    by_cases hx : x = c
    · rw [if_pos hx, hx, List.erase_cons_head]
    · rw [if_neg hx]
      have hcxs : c ∈ xs := by
        rcases List.mem_cons.mp hc with rfl | h
        · exact absurd rfl hx
        · exact h
      rw [ih hcxs, List.erase_cons_tail]
      · rfl
      · simp [hx]

lemma foldl_remove_none : ∀ ds : List Card,
    List.foldl (fun acc c => acc.bind fun cur => removeFirst cur c)
      (none : Option (List Card)) ds = none := by
  intro ds
  induction ds with
  | nil => rfl
  | cons e es ih => exact ih

lemma removeEach_cons (l : List Card) (d : Card) (ds : List Card) :
    removeEach l (d :: ds) = (removeFirst l d).bind fun l2 => removeEach l2 ds := by
  show List.foldl _ ((some l).bind fun cur => removeFirst cur d) ds = _
  rw [Option.some_bind]
  rcases h : removeFirst l d with _ | l2
  · exact foldl_remove_none ds
  · rfl

lemma removeEach_some : ∀ (ds l : List Card), l.Nodup → ds.Nodup → ds ⊆ l →
    removeEach l ds = some (l.filter fun c => c ∉ ds) := by
  intro ds
  induction ds with
  | nil =>
    intro l _ _ _
    rw [show removeEach l [] = some l from rfl]
    rw [List.filter_eq_self.mpr fun a _ => by simp]
  | cons d ds ih =>
    intro l hl hnd hsub
    have hdl : d ∈ l := hsub (List.mem_cons_self _ _)
    rw [removeEach_cons, removeFirst_of_mem hdl, Option.some_bind]
    have hnd2 := List.nodup_cons.mp hnd
    have hsub2 : ds ⊆ l.erase d := by
      intro x hx
      rw [hl.erase_eq_filter d, List.mem_filter]
      refine ⟨hsub (List.mem_cons_of_mem _ hx), ?_⟩
      have hxd : x ≠ d := fun h => hnd2.1 (h ▸ hx)
      simp [hxd]
    rw [ih (l.erase d) (hl.erase d) hnd2.2 hsub2]
    congr 1
    rw [hl.erase_eq_filter d, List.filter_filter]
    refine List.filter_congr fun c _ => ?_
    by_cases hcd : c = d
    · subst hcd
      simp
    · by_cases hcds : c ∈ ds <;> simp [hcd, hcds]

lemma removeEach_none : ∀ (ds l : List Card), l.Nodup → ¬ (ds.Nodup ∧ ds ⊆ l) →
    removeEach l ds = none := by
  intro ds
  induction ds with
  | nil =>
    intro l _ h
    exact absurd ⟨List.nodup_nil, List.nil_subset l⟩ h
  | cons d ds ih =>
    intro l hl h
    by_cases hdl : d ∈ l
    · rw [removeEach_cons, removeFirst_of_mem hdl, Option.some_bind]
      refine ih (l.erase d) (hl.erase d) ?_
      intro ⟨hnd2, hsub2⟩
      refine h ⟨List.nodup_cons.mpr ⟨fun hdd => ?_, hnd2⟩, fun x hx => ?_⟩
      · have hmem := hsub2 hdd
        rw [hl.erase_eq_filter d, List.mem_filter] at hmem
        simp at hmem
      · rcases List.mem_cons.mp hx with rfl | hx2
        · exact hdl
        · exact List.erase_subset _ _ (hsub2 hx2)
    · rw [removeEach_cons, removeFirst_of_not_mem hdl]
      rfl

lemma mem_all_cards : ∀ c : Card, c ∈ all_cards := by decide

lemma all_cards_nodup : all_cards.Nodup := by decide

lemma build_remaining_deck_some {h1 h2 board : List Card}
    (h : (h1 ++ h2 ++ board).Nodup) :
    build_remaining_deck h1 h2 board =
      some (all_cards.filter fun c => c ∉ h1 ++ h2 ++ board) := by
  have hsplit := List.nodup_append.mp h
  have hdead : (h1 ++ h2).Nodup := hsplit.1
  have hbnd : board.Nodup := hsplit.2.1
  have hdisj : (h1 ++ h2).Disjoint board := hsplit.2.2
  unfold build_remaining_deck
  rw [removeEach_some (h1 ++ h2) all_cards all_cards_nodup hdead
    (fun c _ => mem_all_cards c), Option.some_bind]
  have hbsub : board ⊆ all_cards.filter fun c => c ∉ h1 ++ h2 := by
    intro c hc
    rw [List.mem_filter]
    refine ⟨mem_all_cards c, ?_⟩
    simp only [decide_eq_true_eq]
    exact fun hcd => hdisj hcd hc
  rw [removeEach_some board _ (all_cards_nodup.filter _) hbnd hbsub]
  rw [List.filter_filter]
  congr 1
  refine List.filter_congr fun c _ => ?_
  by_cases h1m : c ∈ h1 ++ h2
  · have hmm : c ∈ h1 ++ h2 ++ board := List.mem_append.mpr (Or.inl h1m)
    rw [decide_eq_false (not_not_intro h1m), Bool.and_false,
      decide_eq_false (not_not_intro hmm)]
  · by_cases hbm : c ∈ board
    · have hmm : c ∈ h1 ++ h2 ++ board := List.mem_append.mpr (Or.inr hbm)
      rw [decide_eq_false (not_not_intro hbm), Bool.false_and,
        decide_eq_false (not_not_intro hmm)]
    · have hmm : c ∉ h1 ++ h2 ++ board := by
        intro hc
        rcases List.mem_append.mp hc with hx | hx
        · exact h1m hx
        · exact hbm hx
      rw [decide_eq_true hbm, decide_eq_true h1m, Bool.and_self, decide_eq_true hmm]

lemma build_remaining_deck_none {h1 h2 board : List Card}
    (h : ¬ (h1 ++ h2 ++ board).Nodup) :
    build_remaining_deck h1 h2 board = none := by
  unfold build_remaining_deck
  by_cases hdead : (h1 ++ h2).Nodup
  · rw [removeEach_some (h1 ++ h2) all_cards all_cards_nodup hdead
      (fun c _ => mem_all_cards c), Option.some_bind]
    refine removeEach_none board _ (all_cards_nodup.filter _) ?_
    intro ⟨hbnd, hbsub⟩
    refine h (List.nodup_append.mpr ⟨hdead, hbnd, ?_⟩)
    intro c hcd hcb
    have hcf := hbsub hcb
    rw [List.mem_filter] at hcf
    have h2f := hcf.2
    simp only [decide_eq_true_eq] at h2f
    exact h2f hcd
  · rw [removeEach_none (h1 ++ h2) all_cards all_cards_nodup fun hc => hdead hc.1]
    rfl

/-- C3 counterexample: with valid disjoint holes, an empty board and a trial
count of zero, hand_vs_hand returns equities normally instead of signalling an
error, so the claim that a zero trial count is rejected before sampling is
false on this code. -/
theorem C3_counterexample_trial_count_zero :
    (hand_vs_hand validHole1 validHole2 [] 0 fun _ => []).isSome = true := by
  decide

/-- C3 (amended): hand_vs_hand performs no explicit input validation.  The
only failure before any trial is the panic (modelled as `none`) of the
remaining-deck construction, which fires exactly when the two hole lists and
the board are not pairwise disjoint lists of distinct cards; a trial count of
zero is accepted and returns a result without running any trial. -/
theorem C3_hand_vs_hand_validation (h1 h2 board : List Card) (n : Nat)
    (draws : Nat → List Card) :
    (¬ (h1 ++ h2 ++ board).Nodup → hand_vs_hand h1 h2 board n draws = none)
    ∧ ((h1 ++ h2 ++ board).Nodup → ∃ e, hand_vs_hand h1 h2 board 0 draws = some e) := by
  constructor
  · intro hdup
    unfold hand_vs_hand
    rw [build_remaining_deck_none hdup]
    rfl
  · intro hnd
    unfold hand_vs_hand
    rw [build_remaining_deck_some hnd, Option.some_bind]
    exact ⟨_, rfl⟩

/-- Witness for C3 at concrete inputs: overlapping holes panic, a zero trial
count does not. -/
theorem C3_hand_vs_hand_validation_witness :
    hand_vs_hand overlapHole1 overlapHole2 [] 5 (fun _ => []) = none
    ∧ ∃ e, hand_vs_hand validHole1 validHole2 [] 0 (fun _ => []) = some e :=
  ⟨(C3_hand_vs_hand_validation overlapHole1 overlapHole2 [] 5 (fun _ => [])).1 (by decide),
   (C3_hand_vs_hand_validation validHole1 validHole2 [] 0 (fun _ => [])).2 (by decide)⟩

lemma length_filter_ordering (l : List Nat) (f : Nat → Ordering) :
    (l.filter fun j => f j = .gt).length + (l.filter fun j => f j = .lt).length +
      (l.filter fun j => f j = .eq).length = l.length := by
  induction l with
  | nil => rfl
  | cons a t ih =>
    rcases hf : f a with _ | _ | _ <;>
      simp only [List.filter_cons, hf] <;> simp <;> omega

/-- A trial board `board ++ draws i` together with either hole is a
well-formed 7-card hand, so classification succeeds. -/
lemma trial_hand_type_isSome {h ho board nc : List Card}
    (hh : h.length = 2) (hb5 : board.length ≤ 5)
    (hnd : (h ++ board).Nodup) (hndnc : nc.Nodup)
    (hlen : nc.length = 5 - board.length)
    (hdisj : ∀ c ∈ nc, c ∉ h ∧ c ∉ board) (_ : ho = ho) :
    ∃ t, hand_type h (board ++ nc) = some t := by
  have hlen7 : (h ++ (board ++ nc)).length = 7 := by
    simp only [List.length_append]
    omega
  have hnd2 : (h ++ (board ++ nc)).Nodup := by
    rw [← List.append_assoc]
    rw [List.nodup_append]
    refine ⟨hnd, hndnc, ?_⟩
    intro c hc hcnc
    rcases List.mem_append.mp hc with hx | hx
    · exact (hdisj c hcnc).1 hx
    · exact (hdisj c hcnc).2 hx
  unfold hand_type
  exact handTypeCascade_isSome (by rw [sortCards_length]; exact hlen7) (sortCards_nodup hnd2)

/-- Removing the drawn cards restores the board. -/
lemma removeEach_board {board nc : List Card} (hbnd : board.Nodup) (hncnd : nc.Nodup)
    (hdisj : ∀ c ∈ nc, c ∉ board) : removeEach (board ++ nc) nc = some board := by
  have hnd : (board ++ nc).Nodup :=
    List.nodup_append.mpr ⟨hbnd, hncnd, fun c hc hc2 => (hdisj c hc2) hc⟩
  rw [removeEach_some nc (board ++ nc) hnd hncnd (fun c hc => List.mem_append.mpr (Or.inr hc))]
  congr 1
  rw [List.filter_append]
  have h1 : board.filter (fun c => c ∉ nc) = board :=
    List.filter_eq_self.mpr fun c hc => by
      simp only [decide_eq_true_eq]
      exact fun hcn => hdisj c hcn hc
  have h2 : nc.filter (fun c => c ∉ nc) = [] :=
    List.filter_eq_nil_iff.mpr fun c hc => by simp [hc]
  rw [h1, h2, List.append_nil]

/-- The trial loop: under the draw contract it never panics, leaves the board
as it found it after every trial, and adds to the tallies exactly the number
of trials won by player 1, won by player 2, and tied. -/
lemma equityLoop_spec {h1 h2 board : List Card} {draws : Nat → List Card}
    (hh1 : h1.length = 2) (hh2 : h2.length = 2) (hb5 : board.length ≤ 5)
    (hnd : (h1 ++ h2 ++ board).Nodup) :
    ∀ (k i : Nat) (t : Nat × Nat × Nat),
    (∀ j, i ≤ j → j < i + k → (draws j).Nodup ∧ (draws j).length = 5 - board.length ∧
        ∀ c ∈ draws j, c ∈ all_cards.filter fun c => c ∉ h1 ++ h2 ++ board) →
    equityLoop h1 h2 draws i k board t =
      some ((t.1 + ((List.range' i k).filter fun j =>
          trialCmp h1 h2 board draws j = .gt).length,
        t.2.1 + ((List.range' i k).filter fun j =>
          trialCmp h1 h2 board draws j = .lt).length,
        t.2.2 + ((List.range' i k).filter fun j =>
          trialCmp h1 h2 board draws j = .eq).length), board) := by
  have hsplit := List.nodup_append.mp hnd
  have hsplit1 := List.nodup_append.mp hsplit.1
  have h1nd : h1.Nodup := hsplit1.1
  have h2nd : h2.Nodup := hsplit1.2.1
  have hbnd : board.Nodup := hsplit.2.1
  intro k
  induction k with
  | zero =>
    intro i t _
    show some (t, board) = _
    simp
  | succ k ih =>
    intro i t hdr
    obtain ⟨hdnd, hdlen, hdsub⟩ := hdr i (le_refl i) (by omega)
    have hdfacts : ∀ c ∈ draws i, c ∈ all_cards ∧ c ∉ h1 ∧ c ∉ h2 ∧ c ∉ board := by
      intro c hc
      have := hdsub c hc
      rw [List.mem_filter] at this
      have hmem := this.2
      simp only [decide_eq_true_eq, List.mem_append] at hmem
      push_neg at hmem
      exact ⟨this.1, hmem.1.1, hmem.1.2, hmem.2⟩
    have hnd1b : (h1 ++ board).Nodup := by
      rw [List.nodup_append]
      refine ⟨h1nd, hbnd, fun c hc hc2 => ?_⟩
      have := hsplit.2.2 (List.mem_append.mpr (Or.inl hc)) hc2
      exact this
    have hnd2b : (h2 ++ board).Nodup := by
      rw [List.nodup_append]
      refine ⟨h2nd, hbnd, fun c hc hc2 => ?_⟩
      exact hsplit.2.2 (List.mem_append.mpr (Or.inr hc)) hc2
    obtain ⟨t1, ht1⟩ := trial_hand_type_isSome hh1 hb5 hnd1b hdnd hdlen
      (fun c hc => ⟨(hdfacts c hc).2.1, (hdfacts c hc).2.2.2⟩) (rfl : h2 = h2)
    obtain ⟨t2, ht2⟩ := trial_hand_type_isSome hh2 hb5 hnd2b hdnd hdlen
      (fun c hc => ⟨(hdfacts c hc).2.2.1, (hdfacts c hc).2.2.2⟩) (rfl : h1 = h1)
    have hrm : removeEach (board ++ draws i) (draws i) = some board :=
      removeEach_board hbnd hdnd fun c hc => (hdfacts c hc).2.2.2
    have hcmp : trialCmp h1 h2 board draws i = handCmp t1 t2 := by
      unfold trialCmp
      rw [ht1, ht2]
    show (hand_type h1 (board ++ draws i)).bind _ = _
    rw [ht1, Option.some_bind, ht2, Option.some_bind, hrm, Option.some_bind]
    rw [ih (i + 1) (tallyStep t (handCmp t1 t2))
      (fun j hj1 hj2 => hdr j (by omega) (by omega))]
    have hrange : List.range' i (k + 1) = i :: List.range' (i + 1) k := rfl
    rw [hrange]
    rcases hc : handCmp t1 t2 with _ | _ | _ <;>
      simp only [List.filter_cons, hcmp, hc, tallyStep] <;>
      simp <;> omega

/-- C7: under the contract of the external sampler (`choose_multiple`: a
without-replacement draw of `5 - |board|` distinct cards from the slice it is
given, here the remaining deck), the remaining deck built before the trials
is exactly the 52-card deck minus both hole pairs and the fixed board, every
sampled card is a non-dead card (in the deck, outside both holes and the
board), and the trial loop returns the board to its original state after
every trial (the loop's final board equals the initial board, the deck list
itself is never mutated). -/
theorem C7_sampling_invariants (h1 h2 board : List Card) (n : Nat)
    (draws : Nat → List Card)
    (hh1 : h1.length = 2) (hh2 : h2.length = 2) (hb5 : board.length ≤ 5)
    (hnd : (h1 ++ h2 ++ board).Nodup)
    (hcontract : ∀ i, i < n → (draws i).Nodup ∧ (draws i).length = 5 - board.length ∧
        ∀ c ∈ draws i, ∀ deck, build_remaining_deck h1 h2 board = some deck → c ∈ deck) :
    build_remaining_deck h1 h2 board =
      some (all_cards.filter fun c => c ∉ h1 ++ h2 ++ board)
    ∧ (∀ i, i < n → ∀ c ∈ draws i, c ∈ all_cards ∧ c ∉ h1 ∧ c ∉ h2 ∧ c ∉ board)
    ∧ ∀ t0 : Nat × Nat × Nat, ∃ t, equityLoop h1 h2 draws 0 n board t0 = some (t, board) := by
  have hdeck := build_remaining_deck_some hnd
  have hmemdeck : ∀ i, i < n → ∀ c ∈ draws i,
      c ∈ all_cards.filter fun c => c ∉ h1 ++ h2 ++ board := by
    intro i hi c hc
    exact (hcontract i hi).2.2 c hc _ hdeck
  refine ⟨hdeck, ?_, ?_⟩
  · intro i hi c hc
    have := hmemdeck i hi c hc
    rw [List.mem_filter] at this
    have hm := this.2
    simp only [decide_eq_true_eq, List.mem_append] at hm
    push_neg at hm
    exact ⟨this.1, hm.1.1, hm.1.2, hm.2⟩
  · intro t0
    refine ⟨_, equityLoop_spec hh1 hh2 hb5 hnd n 0 t0 ?_⟩
    intro j hj1 hj2
    exact ⟨(hcontract j (by omega)).1, (hcontract j (by omega)).2.1,
      fun c hc => hmemdeck j (by omega) c hc⟩

/-- Witness for C7 at a concrete full-board matchup with one trial. -/
theorem C7_sampling_invariants_witness :
    build_remaining_deck validHole1 validHole2 board5 =
      some (all_cards.filter fun c => c ∉ validHole1 ++ validHole2 ++ board5)
    ∧ ∃ t, equityLoop validHole1 validHole2 (fun _ => []) 0 1 board5 (0, 0, 0) =
        some (t, board5) := by
  have h := C7_sampling_invariants validHole1 validHole2 board5 1
    (fun _ => ([] : List Card))
    (by decide) (by decide) (by decide) (by decide)
    (fun i _ => ⟨List.nodup_nil, rfl, fun c hc => by cases hc⟩)
  exact ⟨h.1, h.2.2 (0, 0, 0)⟩

/-- C8: each trial increments exactly one tally according to the comparison
of player 1's hand against player 2's (Greater: player-1 win, Less: player-2
win, Equal: tie), so the tallies are the counts of the three outcomes over
the trial indices and sum to the trial count; the returned equities divide
each player's win count by the trial count and both carry the identical
tie ratio. -/
theorem C8_tallies (h1 h2 board : List Card) (n : Nat) (draws : Nat → List Card)
    (hh1 : h1.length = 2) (hh2 : h2.length = 2) (hb5 : board.length ≤ 5)
    (hnd : (h1 ++ h2 ++ board).Nodup)
    (hcontract : ∀ i, i < n → (draws i).Nodup ∧ (draws i).length = 5 - board.length ∧
        ∀ c ∈ draws i, ∀ deck, build_remaining_deck h1 h2 board = some deck → c ∈ deck) :
    ∃ p1 p2 ties : Nat,
      hand_vs_hand h1 h2 board n draws =
        some (⟨(p1 : ℚ) / (n : ℚ), (ties : ℚ) / (n : ℚ)⟩,
              ⟨(p2 : ℚ) / (n : ℚ), (ties : ℚ) / (n : ℚ)⟩)
      ∧ p1 + p2 + ties = n
      ∧ p1 = ((List.range n).filter fun j => trialCmp h1 h2 board draws j = .gt).length
      ∧ p2 = ((List.range n).filter fun j => trialCmp h1 h2 board draws j = .lt).length
      ∧ ties = ((List.range n).filter fun j => trialCmp h1 h2 board draws j = .eq).length := by
  have hdeck := build_remaining_deck_some hnd
  have hloop := equityLoop_spec hh1 hh2 hb5 hnd n 0 (0, 0, 0)
    (fun j hj1 hj2 => ⟨(hcontract j (by omega)).1, (hcontract j (by omega)).2.1,
      fun c hc => (hcontract j (by omega)).2.2 c hc _ hdeck⟩)
  refine ⟨((List.range' 0 n).filter fun j => trialCmp h1 h2 board draws j = .gt).length,
    ((List.range' 0 n).filter fun j => trialCmp h1 h2 board draws j = .lt).length,
    ((List.range' 0 n).filter fun j => trialCmp h1 h2 board draws j = .eq).length,
    ?_, ?_, ?_, ?_, ?_⟩
  · unfold hand_vs_hand
    rw [hdeck, Option.some_bind, hloop]
    simp
  · have := length_filter_ordering (List.range' 0 n) (trialCmp h1 h2 board draws)
    rw [List.length_range'] at this
    exact this
  · rw [List.range_eq_range']
  · rw [List.range_eq_range']
  · rw [List.range_eq_range']

/-- Witness for C8 at the concrete full-board matchup. -/
theorem C8_tallies_witness :
    ∃ p1 p2 ties : Nat,
      hand_vs_hand validHole1 validHole2 board5 1 (fun _ => []) =
        some (⟨(p1 : ℚ) / ((1 : Nat) : ℚ), (ties : ℚ) / ((1 : Nat) : ℚ)⟩,
              ⟨(p2 : ℚ) / ((1 : Nat) : ℚ), (ties : ℚ) / ((1 : Nat) : ℚ)⟩)
      ∧ p1 + p2 + ties = 1 := by
  obtain ⟨p1, p2, ties, heq, hsum, -⟩ := C8_tallies validHole1 validHole2 board5 1
    (fun _ => ([] : List Card)) (by decide) (by decide) (by decide) (by decide)
    (fun i _ => ⟨List.nodup_nil, rfl, fun c hc => by cases hc⟩)
  exact ⟨p1, p2, ties, heq, hsum⟩

/-! Rank-level simulation: two inputs holding the same cards in different
orders sort to lists with pointwise equal ranks, and every detector treats
rank-equal inputs alike. -/

lemma forall₂_map {α β : Type} {R : β → β → Prop} {f g : α → β} :
    ∀ (L : List α), (∀ x ∈ L, R (f x) (g x)) → List.Forall₂ R (L.map f) (L.map g)
  | [], _ => List.Forall₂.nil
  | x :: xs, h => List.Forall₂.cons (h x (List.mem_cons_self _ _))
      (forall₂_map xs fun y hy => h y (List.mem_cons_of_mem _ hy))

lemma forall₂_filter {α : Type} {R : α → α → Prop} {p q : α → Bool}
    (hpq : ∀ x y, R x y → p x = q y) {l1 l2 : List α}
    (h : List.Forall₂ R l1 l2) : List.Forall₂ R (l1.filter p) (l2.filter q) := by
  induction h with
  | nil => exact List.Forall₂.nil
  | @cons a b as bs hr ht ih =>
    rw [List.filter_cons, List.filter_cons, ← hpq a b hr]
    cases hpa : p a
    · rw [if_neg (by simp), if_neg (by simp)]
      exact ih
    · rw [if_pos rfl, if_pos rfl]
      exact List.Forall₂.cons hr ih

lemma forall₂_all {α : Type} {R : α → α → Prop} {p q : α → Bool}
    (hpq : ∀ x y, R x y → p x = q y) {l1 l2 : List α}
    (h : List.Forall₂ R l1 l2) : l1.all p = l2.all q := by
  induction h with
  | nil => rfl
  | @cons a b as bs hr ht ih =>
    rw [List.all_cons, List.all_cons, hpq a b hr, ih]

lemma forall₂_find? {α : Type} {R : α → α → Prop} {p q : α → Bool}
    (hpq : ∀ x y, R x y → p x = q y) {l1 l2 : List α}
    (h : List.Forall₂ R l1 l2) : optRel R (l1.find? p) (l2.find? q) := by
  induction h with
  | nil => trivial
  | @cons a b as bs hr ht ih =>
    cases hpa : p a
    · rw [List.find?_cons_of_neg _ (by simp [hpa]),
        List.find?_cons_of_neg _ (by rw [← hpq a b hr]; simp [hpa])]
      exact ih
    · rw [List.find?_cons_of_pos _ hpa,
        List.find?_cons_of_pos _ (by rw [← hpq a b hr]; exact hpa)]
      exact hr

lemma forall₂_getElem? {α : Type} {R : α → α → Prop} :
    ∀ {l1 l2 : List α}, List.Forall₂ R l1 l2 → ∀ n : Nat, optRel R l1[n]? l2[n]?
  | _, _, List.Forall₂.nil, _ => trivial
  | _, _, List.Forall₂.cons hr ht, 0 => by
    rw [List.getElem?_cons_zero, List.getElem?_cons_zero]
    exact hr
  | _, _, List.Forall₂.cons hr ht, n + 1 => by
    rw [List.getElem?_cons_succ, List.getElem?_cons_succ]
    exact forall₂_getElem? ht n

lemma forall₂_getD {α : Type} {R : α → α → Prop} {l1 l2 : List α}
    (h : List.Forall₂ R l1 l2) (n : Nat) {d : α} (hd : R d d) :
    R (l1.getD n d) (l2.getD n d) := by
  rw [List.getD_eq_getElem?_getD, List.getD_eq_getElem?_getD]
  have hrel := forall₂_getElem? h n
  rcases h1 : l1[n]? with _ | a <;> rcases h2 : l2[n]? with _ | b <;>
    rw [h1, h2] at hrel
  · exact hd
  · exact hrel.elim
  · exact hrel.elim
  · exact hrel

lemma forall₂_head? {α : Type} {R : α → α → Prop} {l1 l2 : List α}
    (h : List.Forall₂ R l1 l2) : optRel R l1.head? l2.head? := by
  cases h with
  | nil => trivial
  | cons hr _ => exact hr

lemma rankEqL_refl : ∀ l : List Card, RankEqL l l
  | [] => List.Forall₂.nil
  | _ :: cs => List.Forall₂.cons rfl (rankEqL_refl cs)

lemma rankEqL_append {a b c d : List Card} (h1 : RankEqL a b) (h2 : RankEqL c d) :
    RankEqL (a ++ c) (b ++ d) := by
  induction h1 with
  | nil => exact h2
  | cons hr _ ih => exact List.Forall₂.cons hr ih

lemma rankEqL_map_toNat {l1 l2 : List Card} (h : RankEqL l1 l2) :
    (l1.map fun c => c.rank.toNat) = l2.map fun c => c.rank.toNat := by
  induction h with
  | nil => rfl
  | cons hr _ ih => rw [List.map_cons, List.map_cons, hr, ih]

lemma rankEqL_of_map_toNat : ∀ {l1 l2 : List Card},
    (l1.map fun c => c.rank.toNat) = (l2.map fun c => c.rank.toNat) → RankEqL l1 l2
  | [], [], _ => List.Forall₂.nil
  | [], _ :: _, h => by simp at h
  | _ :: _, [], h => by simp at h
  | a :: as, b :: bs, h => by
    rw [List.map_cons, List.map_cons, List.cons_eq_cons] at h
    exact List.Forall₂.cons (Rank.toNat_inj h.1) (rankEqL_of_map_toNat h.2)

lemma rankEqL_listCardCmp {l1 l2 : List Card} (h : RankEqL l1 l2) :
    listCardCmp l1 l2 = .eq := by
  rw [listCardCmp_eq_lexNat, rankEqL_map_toNat h]
  exact lexNat_eq_iff.mpr rfl

lemma rankEqL_two {a b : Card} {l2 : List Card} (h : RankEqL [a, b] l2) :
    ∃ a' b', l2 = [a', b'] ∧ a.rank = a'.rank ∧ b.rank = b'.rank := by
  cases h with
  | cons h1 h =>
    cases h with
    | cons h2 h =>
      cases h
      exact ⟨_, _, rfl, h1, h2⟩

lemma rankEqL_three {a b c : Card} {l2 : List Card} (h : RankEqL [a, b, c] l2) :
    ∃ a' b' c', l2 = [a', b', c'] ∧ a.rank = a'.rank ∧ b.rank = b'.rank ∧ c.rank = c'.rank := by
  cases h with
  | cons h1 h =>
    cases h with
    | cons h2 h =>
      cases h with
      | cons h3 h =>
        cases h
        exact ⟨_, _, _, rfl, h1, h2, h3⟩

lemma rankEqL_four {a b c d : Card} {l2 : List Card} (h : RankEqL [a, b, c, d] l2) :
    ∃ a' b' c' d', l2 = [a', b', c', d'] ∧ a.rank = a'.rank ∧ b.rank = b'.rank ∧
      c.rank = c'.rank ∧ d.rank = d'.rank := by
  cases h with
  | cons h1 h =>
    cases h with
    | cons h2 h =>
      cases h with
      | cons h3 h =>
        cases h with
        | cons h4 h =>
          cases h
          exact ⟨_, _, _, _, rfl, h1, h2, h3, h4⟩

lemma htRankEq_refl : ∀ t : HandType, htRankEq t t
  | .HighCard a => rankEqL_refl a
  | .Pair a b => ⟨rankEqL_refl a, rankEqL_refl b⟩
  | .TwoPair a b _ => ⟨rankEqL_refl a, rankEqL_refl b, rfl⟩
  | .Trips a b => ⟨rankEqL_refl a, rankEqL_refl b⟩
  | .Straight a => rankEqL_refl a
  | .Flush a => rankEqL_refl a
  | .FullHouse a b => ⟨rankEqL_refl a, rankEqL_refl b⟩
  | .Quads a _ => ⟨rankEqL_refl a, rfl⟩
  | .StraightFlush a => rankEqL_refl a

lemma htRankEq_cmp {t1 t2 : HandType} (h : htRankEq t1 t2) :
    t1.ctorIdx = t2.ctorIdx ∧ handCmp t1 t2 = .eq := by
  cases t1 <;> cases t2 <;> try exact h.elim
  · exact ⟨rfl, rankEqL_listCardCmp h⟩
  · refine ⟨rfl, ?_⟩
    show (listCardCmp _ _).then (listCardCmp _ _) = .eq
    rw [rankEqL_listCardCmp h.1, rankEqL_listCardCmp h.2]
    rfl
  · refine ⟨rfl, ?_⟩
    show ((listCardCmp _ _).then (listCardCmp _ _)).then (cardCmp _ _) = .eq
    rw [rankEqL_listCardCmp h.1, rankEqL_listCardCmp h.2.1]
    show (Ordering.eq.then .eq).then (rankCmp _ _) = .eq
    rw [rankCmp, h.2.2]
    show (Ordering.eq.then .eq).then (compare _ _) = .eq
    rw [Nat.compare_eq_eq.mpr rfl]
    rfl
  · refine ⟨rfl, ?_⟩
    show (listCardCmp _ _).then (listCardCmp _ _) = .eq
    rw [rankEqL_listCardCmp h.1, rankEqL_listCardCmp h.2]
    rfl
  · exact ⟨rfl, rankEqL_listCardCmp h⟩
  · exact ⟨rfl, rankEqL_listCardCmp h⟩
  · refine ⟨rfl, ?_⟩
    show (listCardCmp _ _).then (listCardCmp _ _) = .eq
    rw [rankEqL_listCardCmp h.1, rankEqL_listCardCmp h.2]
    rfl
  · refine ⟨rfl, ?_⟩
    show (listCardCmp _ _).then (cardCmp _ _) = .eq
    rw [rankEqL_listCardCmp h.1]
    show Ordering.eq.then (rankCmp _ _) = .eq
    rw [rankCmp, h.2]
    show Ordering.eq.then (compare _ _) = .eq
    rw [Nat.compare_eq_eq.mpr rfl]
    rfl
  · exact ⟨rfl, rankEqL_listCardCmp h⟩

lemma gbrf_none {cards : List Card} {r : Rank}
    (h5 : 5 ≤ (grouped_by_rank cards r.toNat).length) :
    group_by_rank_freq cards = none := by
  unfold group_by_rank_freq
  rw [if_neg]
  intro hall
  have hmem : grouped_by_rank cards r.toNat ∈
      (List.range 15).reverse.map (grouped_by_rank cards) :=
    List.mem_map.mpr ⟨r.toNat, by
      have := Rank.toNat_le_14 r
      simp only [List.mem_reverse, List.mem_range]
      omega, rfl⟩
  have := List.all_eq_true.mp hall _ hmem
  simp at this
  omega

lemma gbrf_rel {c1 c2 : List Card} (h : RankEqL c1 c2) :
    optRel (List.Forall₂ (List.Forall₂ RankEqL))
      (group_by_rank_freq c1) (group_by_rank_freq c2) := by
  have hgr : ∀ r : Nat, RankEqL (grouped_by_rank c1 r) (grouped_by_rank c2 r) :=
    fun r => forall₂_filter (fun x y hxy => by rw [hxy]) h
  have hlen : ∀ r : Nat, (grouped_by_rank c1 r).length = (grouped_by_rank c2 r).length :=
    fun r => List.Forall₂.length_eq (hgr r)
  by_cases hle : ∀ r : Rank, (grouped_by_rank c1 r.toNat).length ≤ 4
  · have hle2 : ∀ r : Rank, (grouped_by_rank c2 r.toNat).length ≤ 4 :=
      fun r => hlen r.toNat ▸ hle r
    rw [gbrf_eq_some hle, gbrf_eq_some hle2]
    have hfilters : ∀ k : Nat,
        (descRanks.filter fun r => (grouped_by_rank c1 r).length = k)
          = descRanks.filter fun r => (grouped_by_rank c2 r).length = k :=
      fun k => List.filter_congr fun r _ => by rw [hlen r]
    refine forall₂_map _ fun k _ => ?_
    rw [hfilters k]
    exact forall₂_map _ fun r _ => hgr r
  · push_neg at hle
    obtain ⟨r, hr⟩ := hle
    rw [@gbrf_none c1 r (by omega), @gbrf_none c2 r (by rw [← hlen]; omega)]
    trivial

lemma get_high_card_rel {c1 c2 : List Card} (h : RankEqL c1 c2) :
    optRel (optRel htRankEq) (get_high_card c1) (get_high_card c2) := by
  unfold get_high_card card_vec_to_card_array
  rw [← List.Forall₂.length_eq h]
  by_cases h5 : 5 ≤ c1.length
  · rw [if_pos h5, if_pos h5]
    exact List.forall₂_take 5 h
  · rw [if_neg h5, if_neg h5]
    trivial

lemma flushGo_congr {c1 c2 : List Card}
    (hs : ∀ s, group_by_suit c1 s = group_by_suit c2 s) :
    ∀ ss, flushGo c1 ss = flushGo c2 ss
  | [] => rfl
  | s :: rest => by
    unfold flushGo
    rw [hs s, flushGo_congr hs rest]

lemma sfGo_congr {c1 c2 : List Card}
    (hs : ∀ s, group_by_suit c1 s = group_by_suit c2 s) :
    ∀ ss, sfGo c1 ss = sfGo c2 ss
  | [] => rfl
  | s :: rest => by
    unfold sfGo
    rw [hs s, sfGo_congr hs rest]

lemma optRel_refl_ht : ∀ r : Option (Option HandType), optRel (optRel htRankEq) r r
  | none => trivial
  | some none => trivial
  | some (some t) => htRankEq_refl t

lemma orElseP_rel {a1 a2 : Option (Option HandType)} {b1 b2 : Unit → Option (Option HandType)}
    (ha : optRel (optRel htRankEq) a1 a2)
    (hb : optRel (optRel htRankEq) (b1 ()) (b2 ())) :
    optRel (optRel htRankEq) (orElseP a1 b1) (orElseP a2 b2) := by
  rcases a1 with _ | (_ | t1) <;> rcases a2 with _ | (_ | t2) <;> try exact ha.elim
  · trivial
  · exact hb
  · exact ha

lemma get_quads_rel {c1 c2 : List Card} (h : RankEqL c1 c2) :
    optRel (optRel htRankEq) (get_quads c1) (get_quads c2) := by
  have hb := gbrf_rel h
  unfold get_quads
  rcases hb1 : group_by_rank_freq c1 with _ | B1 <;>
    rcases hb2 : group_by_rank_freq c2 with _ | B2 <;> rw [hb1, hb2] at hb
  · trivial
  · exact hb.elim
  · exact hb.elim
  rw [Option.some_bind, Option.some_bind]
  have hbk := forall₂_getD hb 4 List.Forall₂.nil
  have hhd := forall₂_head? hbk
  rcases h1 : (B1.getD 4 []).head? with _ | g1 <;>
    rcases h2 : (B2.getD 4 []).head? with _ | g2 <;> rw [h1, h2] at hhd
  · trivial
  · exact hhd.elim
  · exact hhd.elim
  cases hhd with
  | nil => trivial
  | @cons a a' g1t g2t ha htl =>
  cases htl with
  | nil => trivial
  | @cons b b' g1t g2t hbr htl =>
  cases htl with
  | nil => trivial
  | @cons c c' g1t g2t hc htl =>
  cases htl with
  | nil => trivial
  | @cons d d' g1t g2t hd htl =>
  cases htl with
  | @cons e e' g1t g2t he htl => trivial
  | nil =>
  have hf : optRel (fun x y : Card => x.rank = y.rank)
      (c1.find? fun card => card.rank ≠ a.rank)
      (c2.find? fun card => card.rank ≠ a'.rank) :=
    forall₂_find? (fun x y hxy => by rw [hxy, ha]) h
  show optRel (optRel htRankEq)
    (match c1.find? fun card => card.rank ≠ a.rank with
     | some k => some (some (.Quads [a, b, c, d] k))
     | none => some none)
    (match c2.find? fun card => card.rank ≠ a'.rank with
     | some k => some (some (.Quads [a', b', c', d'] k))
     | none => some none)
  rcases hk1 : c1.find? fun card => card.rank ≠ a.rank with _ | k1 <;>
    rcases hk2 : c2.find? fun card => card.rank ≠ a'.rank with _ | k2 <;>
    rw [hk1, hk2] at hf <;> rw [hk1, hk2]
  · trivial
  · exact hf.elim
  · exact hf.elim
  · exact ⟨List.Forall₂.cons ha (List.Forall₂.cons hbr (List.Forall₂.cons hc
      (List.Forall₂.cons hd List.Forall₂.nil))), hf⟩

lemma get_full_house_rel {c1 c2 : List Card} (h : RankEqL c1 c2) :
    optRel (optRel htRankEq) (get_full_house c1) (get_full_house c2) := by
  have hb := gbrf_rel h
  unfold get_full_house
  rcases hb1 : group_by_rank_freq c1 with _ | B1 <;>
    rcases hb2 : group_by_rank_freq c2 with _ | B2 <;> rw [hb1, hb2] at hb
  · trivial
  · exact hb.elim
  · exact hb.elim
  rw [Option.some_bind, Option.some_bind]
  have hbk3 := forall₂_getD hb 3 List.Forall₂.nil
  have hhd3 := forall₂_head? hbk3
  have hbk2 := forall₂_getD hb 2 List.Forall₂.nil
  have hhd2 := forall₂_head? hbk2
  have hg2 := forall₂_getElem? hbk3 1
  rcases h1 : (B1.getD 3 []).head? with _ | g1 <;>
    rcases h2 : (B2.getD 3 []).head? with _ | g2 <;> rw [h1, h2] at hhd3
  · trivial
  · exact hhd3.elim
  · exact hhd3.elim
  rcases hp1 : (B1.getD 2 []).head? with _ | p1 <;>
    rcases hp2 : (B2.getD 2 []).head? with _ | p2 <;> rw [hp1, hp2] at hhd2
  · -- no pair bucket on either side: look at a second trips group
    rcases hq1 : (B1.getD 3 [])[1]? with _ | q1 <;>
      rcases hq2 : (B2.getD 3 [])[1]? with _ | q2 <;> rw [hq1, hq2] at hg2
    · cases hhd3 with
      | nil => trivial
      | @cons t1 t1' u1 u2 ht1 htl =>
      cases htl with
      | nil => trivial
      | @cons t2 t2' u1 u2 ht2 htl =>
      cases htl with
      | nil => trivial
      | @cons t3 t3' u1 u2 ht3 htl =>
      cases htl with
      | @cons x x' u1 u2 hx htl => trivial
      | nil => trivial
    · exact hg2.elim
    · exact hg2.elim
    · cases hhd3 with
      | nil => trivial
      | @cons t1 t1' u1 u2 ht1 htl =>
      cases htl with
      | nil => trivial
      | @cons t2 t2' u1 u2 ht2 htl =>
      cases htl with
      | nil => trivial
      | @cons t3 t3' u1 u2 ht3 htl =>
      cases htl with
      | @cons x x' u1 u2 hx htl => trivial
      | nil =>
      cases hg2 with
      | nil => trivial
      | @cons qa qa' v1 v2 hqa htl =>
      cases htl with
      | nil => trivial
      | @cons qb qb' v1 v2 hqb htl =>
      cases htl with
      | nil => trivial
      | @cons qc qc' v1 v2 hqc htl =>
      cases htl with
      | @cons y y' v1 v2 hy htl => trivial
      | nil =>
        exact ⟨List.Forall₂.cons ht1 (List.Forall₂.cons ht2
            (List.Forall₂.cons ht3 List.Forall₂.nil)),
          List.Forall₂.cons hqa (List.Forall₂.cons hqb List.Forall₂.nil)⟩
  · exact hhd2.elim
  · exact hhd2.elim
  · cases hhd3 with
    | nil => trivial
    | @cons t1 t1' u1 u2 ht1 htl =>
    cases htl with
    | nil => trivial
    | @cons t2 t2' u1 u2 ht2 htl =>
    cases htl with
    | nil => trivial
    | @cons t3 t3' u1 u2 ht3 htl =>
    cases htl with
    | @cons x x' u1 u2 hx htl => trivial
    | nil =>
    cases hhd2 with
    | nil => trivial
    | @cons pa pa' v1 v2 hpa htl =>
    cases htl with
    | nil => trivial
    | @cons pb pb' v1 v2 hpb htl =>
    cases htl with
    | @cons y y' v1 v2 hy htl => trivial
    | nil =>
      exact ⟨List.Forall₂.cons ht1 (List.Forall₂.cons ht2
          (List.Forall₂.cons ht3 List.Forall₂.nil)),
        List.Forall₂.cons hpa (List.Forall₂.cons hpb List.Forall₂.nil)⟩

lemma tpPairsBranch_rel {c1 c2 : List Card} {B1 B2 : List (List (List Card))}
    (h : RankEqL c1 c2) (hb : List.Forall₂ (List.Forall₂ RankEqL) B1 B2) :
    optRel (optRel htRankEq) (tpPairsBranch c1 B1) (tpPairsBranch c2 B2) := by
  unfold tpPairsBranch
  have hbk2 := forall₂_getD hb 2 List.Forall₂.nil
  have hplen := List.Forall₂.length_eq hbk2
  rw [← hplen]
  by_cases h2p : 2 ≤ (B1.getD 2 []).length
  · rw [if_pos h2p, if_pos h2p]
    have h0 := forall₂_getElem? hbk2 0
    have h1e := forall₂_getElem? hbk2 1
    rcases hq0 : (B1.getD 2 [])[0]? with _ | p10
    · exact absurd (List.getElem?_eq_none_iff.mp hq0) (by omega)
    rcases hq1 : (B1.getD 2 [])[1]? with _ | p11
    · exact absurd (List.getElem?_eq_none_iff.mp hq1) (by omega)
    rcases hq0' : (B2.getD 2 [])[0]? with _ | p20
    · exact absurd (List.getElem?_eq_none_iff.mp hq0') (by omega)
    rcases hq1' : (B2.getD 2 [])[1]? with _ | p21
    · exact absurd (List.getElem?_eq_none_iff.mp hq1') (by omega)
    rw [hq0, hq0'] at h0
    rw [hq1, hq1'] at h1e
    have h0' : List.Forall₂ (fun a b : Card => a.rank = b.rank) p10 p20 := h0
    have h1e' : List.Forall₂ (fun a b : Card => a.rank = b.rank) p11 p21 := h1e
    cases h0' with
    | nil => trivial
    | @cons a1 a1' w1 w2 ha1 htl =>
    cases htl with
    | nil => trivial
    | @cons a2 a2' w1 w2 ha2 htl =>
    cases htl with
    | @cons y y' w1 w2 hy htl => trivial
    | nil =>
    cases h1e' with
    | nil => trivial
    | @cons b1 b1' w1 w2 hb1 htl =>
    cases htl with
    | nil => trivial
    | @cons b2 b2' w1 w2 hb2 htl =>
    cases htl with
    | @cons y y' w1 w2 hy htl => trivial
    | nil =>
    show optRel (optRel htRankEq)
      (match c1.find? fun c => c.rank ≠ a1.rank ∧ c.rank ≠ b1.rank with
       | some k => some (some (.TwoPair [a1, a2] [b1, b2] k))
       | none => none)
      (match c2.find? fun c => c.rank ≠ a1'.rank ∧ c.rank ≠ b1'.rank with
       | some k => some (some (.TwoPair [a1', a2'] [b1', b2'] k))
       | none => none)
    have hf : optRel (fun x y : Card => x.rank = y.rank)
        (c1.find? fun c => c.rank ≠ a1.rank ∧ c.rank ≠ b1.rank)
        (c2.find? fun c => c.rank ≠ a1'.rank ∧ c.rank ≠ b1'.rank) :=
      forall₂_find? (fun x y hxy => by rw [hxy, ha1, hb1]) h
    rcases hk1 : c1.find? fun c => c.rank ≠ a1.rank ∧ c.rank ≠ b1.rank with _ | k1 <;>
      rcases hk2 : c2.find? fun c => c.rank ≠ a1'.rank ∧ c.rank ≠ b1'.rank with _ | k2 <;>
      rw [hk1, hk2] at hf <;> rw [hk1, hk2]
    · trivial
    · exact hf.elim
    · exact hf.elim
    · exact ⟨List.Forall₂.cons ha1 (List.Forall₂.cons ha2 List.Forall₂.nil),
        List.Forall₂.cons hb1 (List.Forall₂.cons hb2 List.Forall₂.nil), hf⟩
  · rw [if_neg h2p, if_neg h2p]
    by_cases h1p : (B1.getD 2 []).length = 1
    · rw [if_pos h1p, if_pos h1p]
      have h0 := forall₂_getElem? hbk2 0
      rcases hq0 : (B1.getD 2 [])[0]? with _ | p10
      · exact absurd (List.getElem?_eq_none_iff.mp hq0) (by omega)
      rcases hq0' : (B2.getD 2 [])[0]? with _ | p20
      · exact absurd (List.getElem?_eq_none_iff.mp hq0') (by omega)
      rw [hq0, hq0'] at h0
      have h0' : List.Forall₂ (fun a b : Card => a.rank = b.rank) p10 p20 := h0
      cases h0' with
      | nil => trivial
      | @cons a1 a1' w1 w2 ha1 htl =>
      cases htl with
      | nil => trivial
      | @cons a2 a2' w1 w2 ha2 htl =>
      cases htl with
      | @cons y y' w1 w2 hy htl => trivial
      | nil =>
      show optRel (optRel htRankEq)
        (if 3 ≤ (c1.filter fun c => c.rank ≠ a1.rank).length then
           some (some (.Pair [a1, a2] ((c1.filter fun c => c.rank ≠ a1.rank).take 3)))
         else none)
        (if 3 ≤ (c2.filter fun c => c.rank ≠ a1'.rank).length then
           some (some (.Pair [a1', a2'] ((c2.filter fun c => c.rank ≠ a1'.rank).take 3)))
         else none)
      have hksr : RankEqL (c1.filter fun c => c.rank ≠ a1.rank)
          (c2.filter fun c => c.rank ≠ a1'.rank) :=
        forall₂_filter (fun x y hxy => by rw [hxy, ha1]) h
      have hksl := List.Forall₂.length_eq hksr
      rw [← hksl]
      by_cases hk3 : 3 ≤ (c1.filter fun c => c.rank ≠ a1.rank).length
      · rw [if_pos hk3, if_pos hk3]
        exact ⟨List.Forall₂.cons ha1 (List.Forall₂.cons ha2 List.Forall₂.nil),
          List.forall₂_take 3 hksr⟩
      · rw [if_neg hk3, if_neg hk3]
        trivial
    · rw [if_neg h1p, if_neg h1p]
      trivial

lemma get_trips_or_pairs_rel {c1 c2 : List Card} (h : RankEqL c1 c2) :
    optRel (optRel htRankEq) (get_trips_or_pairs c1) (get_trips_or_pairs c2) := by
  have hb := gbrf_rel h
  unfold get_trips_or_pairs
  rcases hb1 : group_by_rank_freq c1 with _ | B1 <;>
    rcases hb2 : group_by_rank_freq c2 with _ | B2 <;> rw [hb1, hb2] at hb
  · trivial
  · exact hb.elim
  · exact hb.elim
  rw [Option.some_bind, Option.some_bind]
  show optRel (optRel htRankEq)
    (match
      (match (B1.getD 3 []).head? with
       | some g =>
         match g with
         | [t1, t2, t3] =>
           if 2 ≤ (c1.filter fun c => c.rank ≠ t1.rank).length then
             some (some (some (.Trips [t1, t2, t3]
               ((c1.filter fun c => c.rank ≠ t1.rank).take 2))))
           else none
         | _ => some none
       | none => none : Option (Option (Option HandType)))
     with
     | some (some r) => some r
     | some none => none
     | none => tpPairsBranch c1 B1)
    (match
      (match (B2.getD 3 []).head? with
       | some g =>
         match g with
         | [t1, t2, t3] =>
           if 2 ≤ (c2.filter fun c => c.rank ≠ t1.rank).length then
             some (some (some (.Trips [t1, t2, t3]
               ((c2.filter fun c => c.rank ≠ t1.rank).take 2))))
           else none
         | _ => some none
       | none => none : Option (Option (Option HandType)))
     with
     | some (some r) => some r
     | some none => none
     | none => tpPairsBranch c2 B2)
  have hbk3 := forall₂_getD hb 3 List.Forall₂.nil
  have hhd3 := forall₂_head? hbk3
  rcases h1 : (B1.getD 3 []).head? with _ | g1 <;>
    rcases h2 : (B2.getD 3 []).head? with _ | g2 <;> rw [h1, h2] at hhd3
  · exact tpPairsBranch_rel h hb
  · exact hhd3.elim
  · exact hhd3.elim
  cases hhd3 with
  | nil => trivial
  | @cons t1 t1' u1 u2 ht1 htl =>
  cases htl with
  | nil => trivial
  | @cons t2 t2' u1 u2 ht2 htl =>
  cases htl with
  | nil => trivial
  | @cons t3 t3' u1 u2 ht3 htl =>
  cases htl with
  | @cons x x' u1 u2 hx htl => trivial
  | nil =>
  show optRel (optRel htRankEq)
    (match
      (if 2 ≤ (c1.filter fun c => c.rank ≠ t1.rank).length then
         some (some (some (.Trips [t1, t2, t3]
           ((c1.filter fun c => c.rank ≠ t1.rank).take 2))))
       else none : Option (Option (Option HandType)))
     with
     | some (some r) => some r
     | some none => none
     | none => tpPairsBranch c1 B1)
    (match
      (if 2 ≤ (c2.filter fun c => c.rank ≠ t1'.rank).length then
         some (some (some (.Trips [t1', t2', t3']
           ((c2.filter fun c => c.rank ≠ t1'.rank).take 2))))
       else none : Option (Option (Option HandType)))
     with
     | some (some r) => some r
     | some none => none
     | none => tpPairsBranch c2 B2)
  have hksr : RankEqL (c1.filter fun c => c.rank ≠ t1.rank)
      (c2.filter fun c => c.rank ≠ t1'.rank) :=
    forall₂_filter (fun x y hxy => by rw [hxy, ht1]) h
  have hksl := List.Forall₂.length_eq hksr
  rw [← hksl]
  by_cases hk2 : 2 ≤ (c1.filter fun c => c.rank ≠ t1.rank).length
  · rw [if_pos hk2, if_pos hk2]
    exact ⟨List.Forall₂.cons ht1 (List.Forall₂.cons ht2
        (List.Forall₂.cons ht3 List.Forall₂.nil)),
      List.forall₂_take 2 hksr⟩
  · rw [if_neg hk2, if_neg hk2]
    exact tpPairsBranch_rel h hb

lemma straightGo_rel {l1 l2 : List Card} (h : RankEqL l1 l2) : ∀ (last : Rank)
    {s1 s2 : List Card}, RankEqL s1 s2 →
    optRel RankEqL (straightGo l1 last s1).1 (straightGo l2 last s2).1 ∧
    (straightGo l1 last s1).2.1 = (straightGo l2 last s2).2.1 ∧
    RankEqL (straightGo l1 last s1).2.2 (straightGo l2 last s2).2.2 := by
  induction h with
  | nil =>
    intro last s1 s2 hs
    exact ⟨trivial, rfl, hs⟩
  | @cons a b as bs hr ht ih =>
    intro last s1 s2 hs
    rw [straightGo_cons, straightGo_cons]
    have hnsr : RankEqL (nextStreak a last s1) (nextStreak b last s2) := by
      unfold nextStreak
      rw [← hr]
      by_cases hp : ¬ a.rank.preceeds last
      · rw [if_pos hp, if_pos hp]
        exact List.Forall₂.cons hr List.Forall₂.nil
      · rw [if_neg hp, if_neg hp]
        exact rankEqL_append hs (List.Forall₂.cons hr List.Forall₂.nil)
    have hlen : (nextStreak a last s1).length = (nextStreak b last s2).length :=
      List.Forall₂.length_eq hnsr
    by_cases hal : a.rank = last
    · rw [if_pos hal, if_pos (hr.symm.trans hal)]
      exact ih last hs
    · rw [if_neg hal, if_neg fun hcon => hal (hr.trans hcon)]
      by_cases h5 : (nextStreak a last s1).length = 5
      · rw [if_pos h5, if_pos (hlen.symm.trans h5)]
        exact ⟨hnsr, hr, hnsr⟩
      · rw [if_neg h5, if_neg fun hcon => h5 (hlen.trans hcon)]
        rw [← hr]
        exact ih a.rank hnsr

lemma get_straight_rel {c1 c2 : List Card} (h : RankEqL c1 c2) :
    optRel (optRel htRankEq) (get_straight c1) (get_straight c2) := by
  have hlen := List.Forall₂.length_eq h
  unfold get_straight
  rw [← hlen]
  by_cases h5 : 5 ≤ c1.length
  case neg =>
    rw [if_neg h5, if_neg h5]
    trivial
  case pos =>
  rw [if_pos h5, if_pos h5]
  obtain ⟨ho, hl, hst⟩ := straightGo_rel h Rank.two List.Forall₂.nil
  rcases hg1 : straightGo c1 .two [] with ⟨o1, last1, st1⟩
  rcases hg2 : straightGo c2 .two [] with ⟨o2, last2, st2⟩
  rw [hg1, hg2] at ho hl hst
  simp only at ho hl hst
  rcases o1 with _ | s1' <;> rcases o2 with _ | s2'
  · -- no early return on either side: wheel logic
    subst hl
    have hstlen := List.Forall₂.length_eq hst
    show optRel (optRel htRankEq)
      (if last1 = Rank.two ∧ st1.length = 4 then
         match c1.head? with
         | some c0 =>
           if c0.rank = Rank.ace then
             match card_vec_to_card_array (st1 ++ [c0]) with
             | some arr => some (some (.Straight arr))
             | none => none
           else some none
         | none => none
       else some none)
      (if last1 = Rank.two ∧ st2.length = 4 then
         match c2.head? with
         | some c0 =>
           if c0.rank = Rank.ace then
             match card_vec_to_card_array (st2 ++ [c0]) with
             | some arr => some (some (.Straight arr))
             | none => none
           else some none
         | none => none
       else some none)
    by_cases hw : last1 = Rank.two ∧ st1.length = 4
    · rw [if_pos hw, if_pos ⟨hw.1, by rw [← hstlen]; exact hw.2⟩]
      have hhd := forall₂_head? h
      rcases hc1 : c1.head? with _ | c0 <;> rcases hc2 : c2.head? with _ | c0' <;>
        rw [hc1, hc2] at hhd
      · trivial
      · exact hhd.elim
      · exact hhd.elim
      · show optRel (optRel htRankEq)
          (if c0.rank = Rank.ace then
             match card_vec_to_card_array (st1 ++ [c0]) with
             | some arr => some (some (.Straight arr))
             | none => none
           else some none)
          (if c0'.rank = Rank.ace then
             match card_vec_to_card_array (st2 ++ [c0']) with
             | some arr => some (some (.Straight arr))
             | none => none
           else some none)
        by_cases hace : c0.rank = Rank.ace
        · rw [if_pos hace, if_pos (hhd.symm.trans hace)]
          have happ : RankEqL (st1 ++ [c0]) (st2 ++ [c0']) :=
            rankEqL_append hst (List.Forall₂.cons hhd List.Forall₂.nil)
          have happlen := List.Forall₂.length_eq happ
          unfold card_vec_to_card_array
          rw [← happlen]
          by_cases h5' : 5 ≤ (st1 ++ [c0]).length
          · rw [if_pos h5', if_pos h5']
            exact List.forall₂_take 5 happ
          · rw [if_neg h5', if_neg h5']
            trivial
        · rw [if_neg hace, if_neg fun hcon => hace (hhd.trans hcon)]
          trivial
    · rw [if_neg hw, if_neg (fun hcon => hw ⟨hcon.1, by rw [hstlen]; exact hcon.2⟩)]
      trivial
  · exact ho.elim
  · exact ho.elim
  · -- early return on both sides
    have hs12 : RankEqL s1' s2' := ho
    have hslen := List.Forall₂.length_eq hs12
    show optRel (optRel htRankEq)
      (match card_vec_to_card_array s1' with
       | some arr => some (some (.Straight arr))
       | none => none)
      (match card_vec_to_card_array s2' with
       | some arr => some (some (.Straight arr))
       | none => none)
    unfold card_vec_to_card_array
    rw [← hslen]
    by_cases h5' : 5 ≤ s1'.length
    · rw [if_pos h5', if_pos h5']
      exact List.forall₂_take 5 hs12
    · rw [if_neg h5', if_neg h5']
      trivial

lemma optRel_bind_id {o1 o2 : Option (Option HandType)}
    (h : optRel (optRel htRankEq) o1 o2) :
    optRel htRankEq (o1.bind id) (o2.bind id) := by
  rcases o1 with _ | x1 <;> rcases o2 with _ | x2
  · trivial
  · exact h.elim
  · exact h.elim
  · exact h

lemma handTypeCascade_rel {c1 c2 : List Card} (h : RankEqL c1 c2)
    (hsuit : ∀ s, group_by_suit c1 s = group_by_suit c2 s) :
    optRel htRankEq (handTypeCascade c1) (handTypeCascade c2) := by
  have hsf : get_straight_flush c1 = get_straight_flush c2 := sfGo_congr hsuit all_suits
  have hfl : get_flush c1 = get_flush c2 := by
    unfold get_flush
    rw [flushGo_congr hsuit all_suits]
  have h1 : optRel (optRel htRankEq) (get_straight_flush c1) (get_straight_flush c2) := by
    rw [hsf]
    exact optRel_refl_ht _
  have h4 : optRel (optRel htRankEq) (get_flush c1) (get_flush c2) := by
    rw [hfl]
    exact optRel_refl_ht _
  unfold handTypeCascade
  exact optRel_bind_id (orElseP_rel h1
    (orElseP_rel (get_quads_rel h)
      (orElseP_rel (get_full_house_rel h)
        (orElseP_rel h4
          (orElseP_rel (get_straight_rel h)
            (orElseP_rel (get_trips_or_pairs_rel h) (get_high_card_rel h)))))))

lemma sortCards_sorted (cards : List Card) : List.Sorted cardGe (sortCards cards) :=
  List.sorted_insertionSort cardGe cards

lemma sorted_ranks_eq {l1 l2 : List Card} (hp : l1.Perm l2)
    (hs1 : List.Sorted cardGe l1) (hs2 : List.Sorted cardGe l2) :
    (l1.map fun c => c.rank.toNat) = l2.map fun c => c.rank.toNat := by
  have hm1 : List.Sorted (fun a b : Nat => a ≥ b) (l1.map fun c => c.rank.toNat) :=
    List.Pairwise.map _ (fun a b hab => hab) hs1
  have hm2 : List.Sorted (fun a b : Nat => a ≥ b) (l2.map fun c => c.rank.toNat) :=
    List.Pairwise.map _ (fun a b hab => hab) hs2
  exact List.eq_of_perm_of_sorted (hp.map _) hm1 hm2

lemma group_by_suit_sorted_eq {l1 l2 : List Card} (hperm : l1.Perm l2)
    (hs1 : List.Sorted cardGe l1) (hs2 : List.Sorted cardGe l2) (hnd : l1.Nodup)
    (s : Suit) : group_by_suit l1 s = group_by_suit l2 s := by
  have hnd2 : l2.Nodup := hperm.nodup_iff.mp hnd
  have key : ∀ {l : List Card}, List.Sorted cardGe l → l.Nodup →
      List.Sorted cardGt (l.filter fun c => c.suit = s) := by
    intro l hsl hndl
    have hpw : (l.filter fun c => c.suit = s).Pairwise
        fun a b => cardGe a b ∧ a ≠ b :=
      (List.Pairwise.and hsl hndl).filter _
    refine hpw.imp_of_mem ?_
    intro a b ha hb hab
    have hsuita : a.suit = s := of_decide_eq_true (List.mem_filter.mp ha).2
    have hsuitb : b.suit = s := of_decide_eq_true (List.mem_filter.mp hb).2
    by_cases heq : b.rank.toNat = a.rank.toNat
    · exfalso
      apply hab.2
      have hrk : a.rank = b.rank := Rank.toNat_inj heq.symm
      have hsu : a.suit = b.suit := hsuita.trans hsuitb.symm
      obtain ⟨ar, asu⟩ := a
      obtain ⟨br, bsu⟩ := b
      simp only at hrk hsu
      rw [hrk, hsu]
    · exact Nat.lt_of_le_of_ne hab.1 heq
  unfold group_by_suit
  exact List.eq_of_perm_of_sorted (hperm.filter _) (key hs1 hnd) (key hs2 hnd2)

/-- Counterexample to C2 as stated: swapping the two hole cards permutes the
same seven cards, yet the two returned HandType values are NOT equal — the
stable sort keeps the first-listed ace first, and the ace's suit is stored in
the Straight payload.  (The values still compare as equal, because the derived
Ord compares cards by rank only; that is the amended statement.) -/
theorem C2_counterexample_value_inequality :
    (([⟨.ace, .Spades⟩, ⟨.ace, .Clubs⟩] : List Card) ++ board7).Perm
      (([⟨.ace, .Clubs⟩, ⟨.ace, .Spades⟩] : List Card) ++ board7)
    ∧ hand_type [⟨.ace, .Spades⟩, ⟨.ace, .Clubs⟩] board7 ≠
        hand_type [⟨.ace, .Clubs⟩, ⟨.ace, .Spades⟩] board7 := by
  constructor
  · decide
  · decide

/-- C2 (amended): for any two orderings of the same seven distinct cards (any
split into a 2-card hole and a 5-card board, any order within them),
hand_type returns values of the same variant whose payloads are pointwise
rank-equal; consequently the derived Ord (which compares cards by rank only)
ranks them as equal, so the two orderings are indistinguishable in every
hand-vs-hand comparison.  The returned values themselves need not be equal:
the suits recorded in the payload can differ with the input order. -/
theorem C2_hand_type_permutation (h1 b1 h2 b2 : List Card)
    (hh1 : h1.length = 2) (hb1 : b1.length = 5) (hh2 : h2.length = 2)
    (hb2 : b2.length = 5) (hnd : (h1 ++ b1).Nodup)
    (hperm : (h1 ++ b1).Perm (h2 ++ b2)) :
    ∃ t1 t2, hand_type h1 b1 = some t1 ∧ hand_type h2 b2 = some t2 ∧
      t1.ctorIdx = t2.ctorIdx ∧ handCmp t1 t2 = .eq := by
  have hsp : (sortCards (h1 ++ b1)).Perm (sortCards (h2 ++ b2)) :=
    ((sortCards_perm _).trans hperm).trans (sortCards_perm _).symm
  have hs1 : List.Sorted cardGe (sortCards (h1 ++ b1)) := sortCards_sorted _
  have hs2 : List.Sorted cardGe (sortCards (h2 ++ b2)) := sortCards_sorted _
  have hrk : RankEqL (sortCards (h1 ++ b1)) (sortCards (h2 ++ b2)) :=
    rankEqL_of_map_toNat (sorted_ranks_eq hsp hs1 hs2)
  have hsuit : ∀ s, group_by_suit (sortCards (h1 ++ b1)) s =
      group_by_suit (sortCards (h2 ++ b2)) s :=
    fun s => group_by_suit_sorted_eq hsp hs1 hs2 (sortCards_nodup hnd) s
  have hrel := handTypeCascade_rel hrk hsuit
  have hlen7 : (sortCards (h1 ++ b1)).length = 7 := by
    rw [sortCards_length, List.length_append, hh1, hb1]
  obtain ⟨t1, ht1⟩ := handTypeCascade_isSome hlen7 (sortCards_nodup hnd)
  unfold hand_type
  rw [ht1] at hrel ⊢
  rcases ht2 : handTypeCascade (sortCards (h2 ++ b2)) with _ | t2 <;>
    rw [ht2] at hrel
  · exact hrel.elim
  · obtain ⟨hidx, hcmp⟩ := htRankEq_cmp hrel
    exact ⟨t1, t2, rfl, rfl, hidx, hcmp⟩

/-- Witness for the amended C2 at the counterexample's own inputs. -/
theorem C2_hand_type_permutation_witness :
    ∃ t1 t2, hand_type [⟨.ace, .Spades⟩, ⟨.ace, .Clubs⟩] board7 = some t1 ∧
      hand_type [⟨.ace, .Clubs⟩, ⟨.ace, .Spades⟩] board7 = some t2 ∧
      t1.ctorIdx = t2.ctorIdx ∧ handCmp t1 t2 = .eq :=
  C2_hand_type_permutation _ _ _ _ (by decide) (by decide) (by decide) (by decide)
    (by decide) (by decide)

end RustyPoker
